import Mathlib

/-!
# Verification of the reiserfs extended-attribute storage engine

Shallow embedding of `fs/reiserfs/xattr.c` (the only attribute-engine source
file in the bundle).  Files are byte lists, the page cache is modelled by
absolute-position splicing with zero fill, directories are association lists
from attribute names (byte lists, C strings) to attribute-file inodes.

Machine integers are `Nat` with explicit `% 2 ^ 32` where the C code uses
`__u32`; error codes are `Int` (negative errno values, as in the kernel).
-/

set_option maxRecDepth 4096

namespace ReiserfsXattr

/-- A byte of file or name data. -/
abbrev Byte := Fin 256

/-- An attribute name, as the C code sees it: a byte string. -/
abbrev Name := List Byte

/-! ## Constants

`PAGE_CACHE_SIZE` is the usual 4096-byte page.  `XATTR_CREATE`/`XATTR_REPLACE`
are the standard `<linux/xattr.h>` flag values; `FL_READONLY` is defined in
xattr.c itself (line 47).  Error codes are the standard Linux errno values,
negated as the code returns them. -/

def PAGE_CACHE_SIZE : Nat := 4096

/-- `sizeof (struct reiserfs_xattr_header)`: 4-byte magic + 4-byte hash.
Modelled from the spec: the header struct lives in `reiserfs_xattr.h`, which is
not part of the bundle; spec §6 fixes the layout (4-byte little-endian magic,
4-byte little-endian checksum). -/
def XATTR_HEADER_SIZE : Nat := 8

/-- Modelled from the spec: `REISERFS_XATTR_MAGIC` is defined in
`reiserfs_xattr.h` (absent from the bundle); the spec only requires a fixed
4-byte magic constant, so the value is irrelevant to every claim. -/
def REISERFS_XATTR_MAGIC : Nat := 0x52465841

def XATTR_CREATE : Nat := 1
def XATTR_REPLACE : Nat := 2
def FL_READONLY : Nat := 128

def EIO : Int := -5
def ENODATA : Int := -61
def EEXIST : Int := -17
def ERANGE : Int := -34
def EOPNOTSUPP : Int := -95

/-! ## Byte-level file model -/

def zeros (n : Nat) : List Byte := List.replicate n (0 : Byte)

/-- Write `d` into file `f` at byte position `pos`.  Positions between the old
end of file and `pos` read as zero (page-cache fill), and the file grows as
needed: this is the net effect of `reiserfs_get_page` + `prepare_write` +
`memcpy` + `commit_write` on the byte content. -/
def writeBytes (f : List Byte) (pos : Nat) (d : List Byte) : List Byte :=
  f.take pos ++ zeros (pos - f.length) ++ d ++ f.drop (pos + d.length)

/-- Truncate/extend a file to exactly `n` bytes (the effect of
`notify_change` with `ia_size = n`, xattr.c lines 543-547); extension fills
with zeros. -/
def truncate (f : List Byte) (n : Nat) : List Byte :=
  f.take n ++ zeros (n - f.length)

/-- The byte at position `i`, 0 past the end (page-cache zero fill). -/
def byteAt : List Byte → Nat → Nat
  | [], _ => 0
  | b :: _, 0 => b.val
  | _ :: rest, i + 1 => byteAt rest i

/-- Little-endian 4-byte encoding of a 32-bit value (`cpu_to_le32`). -/
def le32 (v : Nat) : List Byte :=
  [⟨v % 256, by omega⟩, ⟨v / 256 % 256, by omega⟩,
   ⟨v / 65536 % 256, by omega⟩, ⟨v / 16777216 % 256, by omega⟩]

/-- Read a little-endian 32-bit value at byte position `pos` (`le32_to_cpu`). -/
def from_le32_at (l : List Byte) (pos : Nat) : Nat :=
  byteAt l pos + 256 * byteAt l (pos + 1) +
    65536 * byteAt l (pos + 2) + 16777216 * byteAt l (pos + 3)

/-- The page of index `n` of a file, as `reiserfs_get_page` returns it: a full
`PAGE_CACHE_SIZE` bytes, zero-filled past the end of the file content. -/
def filePage (file : List Byte) (n : Nat) : List Byte :=
  let raw := (file.drop (n * PAGE_CACHE_SIZE)).take PAGE_CACHE_SIZE
  raw ++ zeros (PAGE_CACHE_SIZE - raw.length)

/-! ## The checksum

`xattr_hash` (xattr.c lines 489-493) wraps `csum_partial` from
`asm/checksum.h`, which is outside the bundle.  Modelled from the spec
(§4.3 "Numeric semantics"): an Internet-style additive checksum of the
little-endian 16-bit words of the message (a trailing odd byte counts alone),
truncated to the 32-bit register that `csum_partial` returns. -/

def csum_words : List Byte → Nat
  | [] => 0
  | [b] => b.val
  | b0 :: b1 :: rest => b0.val + 256 * b1.val + csum_words rest

/-- Modelled from the spec: `xattr_hash (msg, len) = csum_partial (msg, len, 0)`
as a 32-bit value. -/
def xattr_hash (msg : List Byte) : Nat := csum_words msg % 4294967296

/-- The 8-byte on-disk header written at offset 0 of every attribute file:
little-endian magic, then little-endian checksum (xattr.c lines 570-578). -/
def xattr_header (hash : Nat) : List Byte :=
  le32 REISERFS_XATTR_MAGIC ++ le32 hash

/-! ## The write loop of `reiserfs_xattr_set` (xattr.c lines 552-595)

`wr_chunk` is the chunk computation at lines 556-559; `wr_chunk0` is the
first-page shortening by the header size at lines 572-574.  The loop is
expressed with an explicit iteration budget `fuel` so that it stays
structurally recursive and computable; the entry point passes a budget that
provably exceeds the iteration count (`buffer_pos` grows by at least one per
iteration while below `buffer.length`). -/

def wr_chunk (buffer_size buffer_pos : Nat) : Nat :=
  if buffer_size - buffer_pos > PAGE_CACHE_SIZE then PAGE_CACHE_SIZE
  else buffer_size - buffer_pos

def wr_chunk0 (buffer_size buffer_pos : Nat) : Nat :=
  if wr_chunk buffer_size buffer_pos + XATTR_HEADER_SIZE > PAGE_CACHE_SIZE then
    PAGE_CACHE_SIZE - XATTR_HEADER_SIZE
  else wr_chunk buffer_size buffer_pos

/-- One pass of the `while (buffer_pos < buffer_size || buffer_pos == 0)` loop.
On the first page (`file_pos == 0`) the header is written at offset 0 and the
payload chunk lands at offset `XATTR_HEADER_SIZE`; afterwards `file_pos` is
page-aligned and each chunk lands at `file_pos` (page offset 0, matching
`memcpy (data + skip, ...)` with `skip = 0`).  The
`if err || buffer_size == 0 || !buffer break` at line 593 is the
`buffer_size = 0` early exit (page I/O is modelled as succeeding, and the
claims only use a present buffer). -/
def set_loop (buffer : List Byte) (xahash : Nat) :
    Nat → List Byte → Nat → Nat → List Byte
  | 0, file, _, _ => file
  | fuel + 1, file, file_pos, buffer_pos =>
    if buffer_pos < buffer.length ∨ buffer_pos = 0 then
      if file_pos = 0 then
        let chunk := wr_chunk0 buffer.length buffer_pos
        let file1 := writeBytes (writeBytes file 0 (xattr_header xahash))
          XATTR_HEADER_SIZE ((buffer.drop buffer_pos).take chunk)
        if buffer.length = 0 then file1
        else set_loop buffer xahash fuel file1 (XATTR_HEADER_SIZE + chunk)
          (buffer_pos + chunk)
      else
        let chunk := wr_chunk buffer.length buffer_pos
        let file1 := writeBytes file file_pos ((buffer.drop buffer_pos).take chunk)
        if buffer.length = 0 then file1
        else set_loop buffer xahash fuel file1 (file_pos + chunk)
          (buffer_pos + chunk)
    else file

/-- The new byte content of an attribute file after `reiserfs_xattr_set`
resizes it to `buffer_size` (line 544) and runs the write loop.  The hash is
computed once over the whole payload, zero for empty payloads (lines 518-520). -/
def xattr_file_new_content (buffer old : List Byte) : List Byte :=
  let xahash := if 0 < buffer.length then xattr_hash buffer else 0
  set_loop buffer xahash (buffer.length + 1) (truncate old buffer.length) 0 0

/-! ## The read loop of `reiserfs_xattr_get` (xattr.c lines 646-687) -/

def rd_chunk (isize file_pos : Nat) : Nat :=
  if isize - file_pos > PAGE_CACHE_SIZE then PAGE_CACHE_SIZE
  else isize - file_pos

/-- The `while (file_pos < isize)` loop: per page, copy `chunk` bytes from the
page (past the header on page 0) into the caller's buffer; on page 0 check the
magic (failing with `-EIO` before anything is copied, lines 669-674) and
remember the stored hash.  Returns (error?, buffer contents, stored hash). -/
def get_loop (file : List Byte) :
    Nat → List Byte → Nat → Nat → Nat → Option Int × List Byte × Nat
  | 0, buffer, _, _, hash => (none, buffer, hash)
  | fuel + 1, buffer, file_pos, buffer_pos, hash =>
    if file_pos < file.length then
      let chunk := rd_chunk file.length file_pos
      let page := filePage file (file_pos / PAGE_CACHE_SIZE)
      if file_pos = 0 then
        if from_le32_at page 0 ≠ REISERFS_XATTR_MAGIC then (some EIO, buffer, hash)
        else
          let hash1 := from_le32_at page 4
          let chunk1 := chunk - XATTR_HEADER_SIZE
          let buffer1 := writeBytes buffer buffer_pos
            ((page.drop XATTR_HEADER_SIZE).take chunk1)
          get_loop file fuel buffer1 (XATTR_HEADER_SIZE + chunk1)
            (buffer_pos + chunk1) hash1
      else
        let buffer1 := writeBytes buffer buffer_pos (page.take chunk)
        get_loop file fuel buffer1 (file_pos + chunk) (buffer_pos + chunk) hash
    else (none, buffer, hash)

/-- `size_t` wrap modulus: the difference `isize - sizeof (struct
reiserfs_xattr_header)` at xattr.c line 641 is computed in `size_t`, so for
`isize` below the header size it wraps around the machine word instead of
clamping at zero. -/
def SIZE_T_MOD : Nat := 18446744073709551616

/-- `size_t` subtraction (two's-complement wrap), for `b ≤ SIZE_T_MOD`. -/
def sizeT_sub (a b : Nat) : Nat := (a + (SIZE_T_MOD - b)) % SIZE_T_MOD

/-- `reiserfs_xattr_get` once the attribute file (content `file`) is open:
a null buffer only reports the logical size; a short buffer fails with
`-ERANGE` — the comparison `buffer_size < isize - sizeof (header)` is `size_t`
arithmetic, so a file shorter than the 8-byte header makes the subtrahend wrap
huge and the call fail with `-ERANGE` before the magic is ever examined;
otherwise the read loop runs and the checksum of the bytes read is
compared against the stored hash, `-EIO` on mismatch (lines 632-687).
Returns (return code, final buffer contents). -/
def reiserfs_xattr_get_file (file : List Byte) (buffer : Option (List Byte))
    (buffer_size : Nat) : Int × Option (List Byte) :=
  let isize := file.length
  match buffer with
  | none => (((isize - XATTR_HEADER_SIZE : Nat) : Int), none)
  | some buf =>
    if buffer_size < sizeT_sub isize XATTR_HEADER_SIZE then (ERANGE, some buf)
    else
      match get_loop file (isize + 2) buf 0 0 0 with
      | (some e, buf1, _) => (e, some buf1)
      | (none, buf1, hash) =>
        if xattr_hash (buf1.take (isize - XATTR_HEADER_SIZE)) ≠ hash then
          ( EIO, some buf1)
        else (((isize - XATTR_HEADER_SIZE : Nat) : Int), some buf1)

/-! ## The attribute directory model

An attribute file as the deletion/rewrite paths see it: whether its inode is
a directory, its link count, whether it carries the `i_priv_object` flag
(`is_reiserfs_priv_object`), and its byte content.  The object's attribute
directory is an association list from names to files; `none` means the
directory (or the whole xattr root) does not exist on disk.  `create_xa_root`
and the per-object `mkdir` in `open_xa_dir` are collapsed into one creation
step: both are guarded by the same `flags == 0 || flags & XATTR_CREATE`
condition, and no claim distinguishes a missing root from a missing object
directory. -/

structure XaFile where
  isDir : Bool
  nlink : Nat
  isPriv : Bool
  data : List Byte
deriving DecidableEq

abbrev XaDir := List (Name × XaFile)

/-- `lookup_one_len (name, xadir, strlen (name))`: first entry with that name. -/
def lookup_one_len (name : Name) : XaDir → Option XaFile
  | [] => none
  | (k, f) :: rest => if k = name then some f else lookup_one_len name rest

/-- `dir->i_op->unlink`: remove the (first) entry of that name. -/
def unlinkEntry (name : Name) : XaDir → XaDir
  | [] => []
  | (k, f) :: rest => if k = name then rest else (k, f) :: unlinkEntry name rest

/-- Replace the content of the attribute file `name` (the effect of the
resize-plus-write in `reiserfs_xattr_set` on the opened inode). -/
def updateData (name : Name) (data : List Byte) : XaDir → XaDir
  | [] => []
  | (k, f) :: rest =>
    if k = name then (k, { f with data := data }) :: rest
    else (k, f) :: updateData name data rest

def stateUpdate (st : Option XaDir) (name : Name) (data : List Byte) :
    Option XaDir :=
  match st with
  | none => none
  | some d => some (updateData name data d)

def attrLookup (st : Option XaDir) (name : Name) : Option XaFile :=
  match st with
  | none => none
  | some d => lookup_one_len name d

/-- `flags == 0 || flags & XATTR_CREATE` (xattr.c lines 162, 184): the only
flag combinations that may create missing tree levels. -/
def may_create (flags : Nat) : Bool :=
  flags = 0 ∨ flags &&& XATTR_CREATE ≠ 0

/-- `open_xa_dir` (xattr.c lines 152-204): return the object's attribute
directory, creating the tree if `may_create flags`; `-ENODATA` when it is
missing and creation is forbidden.  Result and updated on-disk state. -/
def open_xa_dir (st : Option XaDir) (flags : Nat) :
    Except Int XaDir × Option XaDir :=
  match st with
  | some d => (.ok d, some d)
  | none =>
    if may_create flags then (.ok [], some ([] : XaDir))
    else (.error ENODATA, none)

/-- A freshly created attribute file: `i_op->create (..., 0700|S_IFREG)`
under the private tree, link count 1, empty. -/
def newXaFile : XaFile := ⟨false, 1, true, []⟩

/-- `get_xa_file_dentry` (xattr.c lines 209-254).  `ok none` is the negative
dentry returned without creating when `XATTR_REPLACE` or `FL_READONLY` is set. -/
def get_xa_file_dentry (st : Option XaDir) (name : Name) (flags : Nat) :
    Except Int (Option XaFile) × Option XaDir :=
  match open_xa_dir st flags with
  | (.error e, st1) => (.error e, st1)
  | (.ok d, st1) =>
    match lookup_one_len name d with
    | some f =>
      if flags &&& XATTR_CREATE ≠ 0 then (.error EEXIST, st1)
      else (.ok (some f), st1)
    | none =>
      if flags &&& XATTR_REPLACE ≠ 0 ∨ flags &&& FL_READONLY ≠ 0 then
        (.ok none, st1)
      else (.ok (some newXaFile), some ((name, newXaFile) :: d))

/-- `open_xa_file` (xattr.c lines 258-276): a negative dentry becomes
`-ENODATA`. -/
def open_xa_file (st : Option XaDir) (name : Name) (flags : Nat) :
    Except Int XaFile × Option XaDir :=
  match get_xa_file_dentry st name flags with
  | (.error e, st1) => (.error e, st1)
  | (.ok none, st1) => (.error ENODATA, st1)
  | (.ok (some f), st1) => (.ok f, st1)

/-- `__reiserfs_xattr_del` (xattr.c lines 696-731): `-ENODATA` if absent;
directories are skipped (error 0, no unlink); a target without the private
flag is refused with `-EIO`; otherwise the entry is unlinked. -/
def __reiserfs_xattr_del (d : XaDir) (name : Name) : Except Int XaDir :=
  match lookup_one_len name d with
  | none => .error ENODATA
  | some f =>
    if f.isDir then .ok d
    else if ¬ f.isPriv then .error EIO
    else .ok (unlinkEntry name d)

/-- `reiserfs_xattr_del` (xattr.c lines 734-751): open the directory
read-only, then `__reiserfs_xattr_del`. -/
def reiserfs_xattr_del (st : Option XaDir) (name : Name) : Int × Option XaDir :=
  match open_xa_dir st FL_READONLY with
  | (.error e, st1) => (e, st1)
  | (.ok d, _) =>
    match __reiserfs_xattr_del d name with
    | .error e => (e, some d)
    | .ok d1 => (0, some d1)

/-- `flags &= ~XATTR_REPLACE` under `flags & XATTR_REPLACE` (line 538-539);
subtracting the set bit clears it. -/
def clearReplace (flags : Nat) : Nat :=
  if flags &&& XATTR_REPLACE ≠ 0 then flags - XATTR_REPLACE else flags

/-- The `open_file:` retry structure of `reiserfs_xattr_set` (xattr.c lines
522-602).  A file with link count > 1 is deleted via `reiserfs_xattr_del` and
the open is retried with `XATTR_REPLACE` cleared (lines 529-541); `fuel`
bounds the number of retries (a freshly created file has link count 1, so one
retry always suffices — the `fuel = 0` sentinel is unreachable from
`reiserfs_xattr_set`).  On the write path the file is resized and the chunked
write loop produces the new content. -/
def reiserfs_xattr_set_go :
    Nat → Option XaDir → Name → List Byte → Nat → Int × Option XaDir
  | fuel, st, name, buffer, flags =>
    match open_xa_file st name flags with
    | (.error e, st1) => (e, st1)
    | (.ok f, st1) =>
      if 1 < f.nlink then
        match reiserfs_xattr_del st1 name with
        | (err, st2) =>
          if err < 0 then (err, st2)
          else
            match fuel with
            | 0 => ( EIO, st2)
            | fuel1 + 1 =>
              reiserfs_xattr_set_go fuel1 st2 name buffer (clearReplace flags)
      else (0, stateUpdate st1 name (xattr_file_new_content buffer f.data))

/-- `reiserfs_xattr_set` (xattr.c lines 500-603).  `sdV1` is
`get_inode_sd_version (inode) == STAT_DATA_V1` (line 515).  The null-buffer
variant (write header only) is not exercised by any claim and is omitted:
`buffer` is always present here. -/
def reiserfs_xattr_set (sdV1 : Bool) (st : Option XaDir) (name : Name)
    (buffer : List Byte) (flags : Nat) : Int × Option XaDir :=
  if sdV1 then (EOPNOTSUPP, st)
  else reiserfs_xattr_set_go 1 st name buffer flags

/-- `reiserfs_xattr_get` (xattr.c lines 608-694): open the attribute file
read-only and run the read path on its content. -/
def reiserfs_xattr_get (sdV1 : Bool) (st : Option XaDir) (name : Name)
    (buffer : Option (List Byte)) (buffer_size : Nat) :
    Int × Option (List Byte) :=
  if sdV1 then (EOPNOTSUPP, buffer)
  else
    match open_xa_file st name FL_READONLY with
    | (.error e, _) => (e, buffer)
    | (.ok f, _) => reiserfs_xattr_get_file f.data buffer buffer_size

/-! ## One iteration of `__xattr_readdir` (xattr.c lines 292-425)

The directory item is a list of entries carrying their hash offset
(`deh_offset`), visibility bit, object id and name.  `search_by_entry_key`
followed by the `NAME_NOT_FOUND → de_entry_num--` adjustment (lines 322-335)
locates the entry at-or-before the cursor; on a directory laid out in
decreasing-offset order that is the first entry whose offset is `≤` the
cursor.  `moved` is the outcome of the `item_moved` optimistic concurrency
check (line 389), consulted only on the long-name (kmalloc) path. -/

/-- Modelled from the spec: `DOT_DOT_OFFSET` comes from `reiserfs_fs.h`
(absent from the bundle) — the directory's base sentinel offset covering
`.`/`..` (spec §4.4). -/
def DOT_DOT_OFFSET : Nat := 2

structure RdEntry where
  deh_offset : Nat
  de_visible : Bool
  deh_objectid : Nat
  d_name : List Byte
deriving DecidableEq

/-- `search_by_entry_key` + the `NAME_NOT_FOUND` back-step: the entry at or
before position `pos`. -/
def search_entry_at_or_before (entries : List RdEntry) (pos : Nat) :
    Option RdEntry :=
  entries.find? (fun e => e.deh_offset ≤ pos)

inductive RdStep where
  | stop
  | emitEntry (nm : List Byte) (d_off next_pos : Nat)
  | skipEntry (next_pos : Nat)
  | retry (next_pos : Nat)
deriving DecidableEq

/-- One iteration of the `while (1)` loop of `__xattr_readdir`, from the
cursor `next_pos`: stop at the base sentinel (lines 318-319, 351-353); set the
cursor to just before the found entry (line 356); skip hidden entries
(line 358), names longer than `max_name` = `REISERFS_MAX_NAME` (line 370) and
the private-root object (lines 375-379); names over 32 bytes need a heap
buffer, and if `item_moved` then fires, the cursor is put back to the entry's
own offset and the iteration retried (lines 389-395); otherwise the entry's
name is emitted to the filldir callback.  A `none` search result models the
`!is_direntry_le_ih` break (line 340); it cannot arise in a well-formed
directory, which always holds its `.`/`..` sentinel at `DOT_DOT_OFFSET`. -/
def xattr_readdir_step (entries : List RdEntry)
    (priv_objectid max_name next_pos : Nat) (moved : Bool) : RdStep :=
  if next_pos ≤ DOT_DOT_OFFSET then .stop
  else
    match search_entry_at_or_before entries next_pos with
    | none => .stop
    | some e =>
      if e.deh_offset ≤ DOT_DOT_OFFSET then .stop
      else
        let nextp := e.deh_offset - 1
        if ¬ e.de_visible then .skipEntry nextp
        else if e.d_name.length > max_name then .skipEntry nextp
        else if e.deh_objectid = priv_objectid then .skipEntry nextp
        else if e.d_name.length ≤ 32 then .emitEntry e.d_name e.deh_offset nextp
        else if moved then .retry e.deh_offset
        else .emitEntry e.d_name e.deh_offset nextp

/-! ## `reiserfs_chown_xattrs` (xattr.c lines 825-913)

`notify_change` applications are recorded as a trace of
(target, `ia_valid` mask) pairs — `some name` for an attribute file, `none`
for the attribute directory itself — so the frame property (which attribute
bits reach which inodes) is directly observable.  `notify_change` itself is a
collaborator and is modelled as succeeding. -/

/-- Attribute-change bits from `linux/fs.h` (outside the bundle); modelled
from the spec, which names the set {uid, gid, change-time}. -/
def ATTR_UID : Nat := 2
def ATTR_GID : Nat := 4
def ATTR_CTIME : Nat := 64

/-- `reiserfs_chown_xattrs_filler` (xattr.c lines 832-854): look the entry up
under the directory, `-ENODATA` if gone, apply the change to non-directories
only (`.`/`..` resolve to directories and are therefore skipped). -/
def reiserfs_chown_xattrs_filler (d : XaDir) (mask : Nat) (name : Name) :
    Int × List (Option Name × Nat) :=
  match lookup_one_len name d with
  | none => (ENODATA, [])
  | some f => if f.isDir = false then (0, [(some name, mask)]) else (0, [])

/-- The `xattr_readdir` pass with the chown filler: visit every name; a
negative filler result stops the enumeration, and `__xattr_readdir` then still
returns 0 (line 410-416 jump to `end`, line 424). -/
def chown_readdir (d : XaDir) (mask : Nat) :
    List Name → Int × List (Option Name × Nat)
  | [] => (0, [])
  | n :: rest =>
    match reiserfs_chown_xattrs_filler d mask n with
    | (e, t) =>
      if e < 0 then (0, t)
      else
        match chown_readdir d mask rest with
        | (e2, t2) => (e2, t ++ t2)

/-- `reiserfs_chown_xattrs` (xattr.c lines 856-913).  `skip` is the guard of
lines 866-871 (private object, v1 stat data, or xattrs disabled).  Returns
(error, `attrs->ia_valid` as the caller sees it after return, trace of
attribute applications).  `ia_valid` is saved at line 863, masked to
uid/gid/ctime at line 893, and restored at line 911 on every path through
`out`. -/
def reiserfs_chown_xattrs (skip : Bool) (st : Option XaDir) (ia_valid : Nat) :
    Int × Nat × List (Option Name × Nat) :=
  if skip then (0, ia_valid, [])
  else
    match open_xa_dir st FL_READONLY with
    | (.error e, _) => (if e ≠ ENODATA then e else 0, ia_valid, [])
    | (.ok d, _) =>
      let mask := ia_valid &&& (ATTR_UID ||| ATTR_GID ||| ATTR_CTIME)
      match chown_readdir d mask (d.map Prod.fst) with
      | (e, t) =>
        if e ≠ 0 then (e, ia_valid, t)
        else (0, ia_valid, t ++ [((none : Option Name), mask)])

/-! ## `reiserfs_listxattr` (xattr.c lines 1001-1096) -/

/-- `find_xattr_handler_prefix` (xattr.c lines 1102-1112): the first
registered handler whose prefix is a leading substring of `name`; handlers are
identified by their prefix strings. -/
def find_xattr_handler_prefix (handlers : List Name) (name : Name) :
    Option Name :=
  handlers.find? (fun p => p.isPrefixOf name)

/-- Modelled from the spec: the per-prefix handler `list` operation
(`xattr_user.c` etc., absent from the bundle) reports the attribute name's
length and, given a buffer, copies the name verbatim (spec §6:
"a concatenation of null-terminated attribute names"). -/
def xattr_list_len (name : Name) : Nat := name.length

/-- The `.`/`..` test of `reiserfs_listxattr_filler` (line 1019):
`name[0] != '.' || (namelen != 1 && (name[1] != '.' || namelen != 2))`. -/
def listxattr_dot_check (name : Name) : Bool :=
  byteAt name 0 ≠ 46 ∨ (name.length ≠ 1 ∧ (byteAt name 1 ≠ 46 ∨ name.length ≠ 2))

/-- `reiserfs_listxattr_filler` (xattr.c lines 1013-1038): skip `.`/`..` and
names with no registered handler; otherwise account `len + 1` bytes in
`r_pos`, and copy the name plus a terminating NUL into the buffer only when it
fits within `r_size`. -/
def reiserfs_listxattr_filler (handlers : List Name) (r_size : Nat)
    (name : Name) (r_pos : Nat) (r_buf : List Byte) : Nat × List Byte :=
  if listxattr_dot_check name then
    match find_xattr_handler_prefix handlers name with
    | none => (r_pos, r_buf)
    | some _ =>
      let len := xattr_list_len name
      if len ≠ 0 then
        let r_buf1 :=
          if r_pos + len + 1 ≤ r_size then
            writeBytes r_buf r_pos (name ++ [(0 : Byte)])
          else r_buf
        (r_pos + len + 1, r_buf1)
      else (r_pos, r_buf)
  else (r_pos, r_buf)

/-- The `xattr_readdir` pass with the listxattr filler (which always returns
0, so the enumeration never stops early). -/
def listxattr_fold (handlers : List Name) (r_size : Nat) :
    List Name → Nat → List Byte → Nat × List Byte
  | [], r_pos, r_buf => (r_pos, r_buf)
  | n :: rest, r_pos, r_buf =>
    match reiserfs_listxattr_filler handlers r_size n r_pos r_buf with
    | (p1, b1) => listxattr_fold handlers r_size rest p1 b1

/-- Whether the filler reports a name: not `.`/`..`, some handler matches,
nonzero listed length. -/
def xattr_visible (handlers : List Name) (n : Name) : Bool :=
  listxattr_dot_check n && ( find_xattr_handler_prefix handlers n).isSome
    && (xattr_list_len n ≠ 0)

/-- The byte sequence a large-enough `listxattr` buffer receives: each
reported name followed by a NUL. -/
def listxattr_out (handlers : List Name) (names : List Name) : List Byte :=
  ((names.filter (xattr_visible handlers)).map (fun n => n ++ [(0 : Byte)])).flatten

/-- `reiserfs_listxattr` (xattr.c lines 1045-1096).  `xattrs_enabled` is
`reiserfs_xattrs (dentry->d_sb)`; `-ENODATA` from the directory lookup is
converted to an empty successful listing (lines 1063-1068); after the
enumeration, a non-null buffer that turned out too small yields `-ERANGE`,
otherwise the accumulated byte count is returned (lines 1086-1089). -/
def reiserfs_listxattr (xattrs_enabled : Bool) (sdV1 : Bool)
    (handlers : List Name) (st : Option XaDir) (buffer : Option (List Byte))
    (size : Nat) : Int × Option (List Byte) :=
  if ¬ xattrs_enabled ∨ sdV1 then (EOPNOTSUPP, buffer)
  else
    match open_xa_dir st FL_READONLY with
    | (.error e, _) => (if e = ENODATA then 0 else e, buffer)
    | (.ok d, _) =>
      let r_size := match buffer with | some _ => size | none => 0
      let r_buf := buffer.getD []
      match listxattr_fold handlers r_size (d.map Prod.fst) 0 r_buf with
      | (r_pos, r_buf1) =>
        if r_pos > r_size ∧ buffer.isSome then (ERANGE, some r_buf1)
        else
          ((r_pos : Int),
            match buffer with | some _ => some r_buf1 | none => none)

/-! ## Basic lemmas about the byte-level model -/

theorem zeros_length (n : Nat) : (zeros n).length = n := by
  simp [zeros]

theorem writeBytes_length (f : List Byte) (pos : Nat) (d : List Byte) :
    (writeBytes f pos d).length = max f.length (pos + d.length) := by
  simp [writeBytes, zeros_length]
  omega

theorem truncate_length (f : List Byte) (n : Nat) : (truncate f n).length = n := by
  simp [truncate, zeros_length]
  omega

/-- Splicing entirely inside the existing file: no zero fill, pure overwrite. -/
theorem writeBytes_inside (f : List Byte) (pos : Nat) (d : List Byte)
    (h : pos ≤ f.length) :
    writeBytes f pos d = f.take pos ++ d ++ f.drop (pos + d.length) := by
  have hz : pos - f.length = 0 := by omega
  simp [writeBytes, hz, zeros]

theorem take_append_len (l1 l2 : List Byte) (n : Nat) :
    (l1 ++ l2).take (l1.length + n) = l1 ++ l2.take n := by
  induction l1 with
  | nil => simp
  | cons a t ih =>
    have : t.length + 1 + n = (t.length + n) + 1 := by omega
    simp [List.length_cons, this, ih]

theorem drop_append_len (l1 l2 : List Byte) (n : Nat) :
    (l1 ++ l2).drop (l1.length + n) = l2.drop n := by
  induction l1 with
  | nil => simp
  | cons a t ih =>
    have : t.length + 1 + n = (t.length + n) + 1 := by omega
    simp [List.length_cons, this, ih]

theorem drop_append_of_le (l1 l2 : List Byte) (n : Nat) (h : n ≤ l1.length) :
    (l1 ++ l2).drop n = l1.drop n ++ l2 := by
  rw [List.drop_append_eq_append_drop]
  have : n - l1.length = 0 := by omega
  simp [this]

theorem set_append_right (l1 l2 : List Byte) (i : Nat) (c : Byte) :
    (l1 ++ l2).set (l1.length + i) c = l1 ++ l2.set i c := by
  induction l1 with
  | nil => simp
  | cons a t ih =>
    have : t.length + 1 + i = (t.length + i) + 1 := by omega
    simp [List.length_cons, this, ih]

theorem byteAt_append_left (l1 l2 : List Byte) (i : Nat) (h : i < l1.length) :
    byteAt (l1 ++ l2) i = byteAt l1 i := by
  induction l1 generalizing i with
  | nil => simp at h
  | cons a t ih =>
    cases i with
    | zero => simp [byteAt]
    | succ j =>
      simp only [List.cons_append, byteAt]
      exact ih j (by simpa using h)

theorem byteAt_take (l : List Byte) (n i : Nat) (h : i < n) :
    byteAt (l.take n) i = byteAt l i := by
  induction l generalizing n i with
  | nil => simp
  | cons a t ih =>
    cases n with
    | zero => omega
    | succ m =>
      cases i with
      | zero => simp [byteAt]
      | succ j => simpa [byteAt] using ih m j (by omega)

/-! ## Checksum lemmas: a one-byte change always changes the hash -/

theorem csum_words_set :
    ∀ (P : List Byte) (i : Nat) (c : Byte) (h : i < P.length),
      csum_words (P.set i c) + (P.get ⟨i, h⟩).val * 256 ^ (i % 2) =
        csum_words P + c.val * 256 ^ (i % 2)
  | [], i, _, h => by simp at h
  | [b], 0, c, _ => by simp [csum_words]; omega
  | [b], i + 1, c, h => by simp at h
  | b0 :: b1 :: rest, 0, c, _ => by
    simp [csum_words]; omega
  | b0 :: b1 :: rest, 1, c, _ => by
    simp [csum_words, pow_one]; omega
  | b0 :: b1 :: rest, i + 2, c, h => by
    have hh : i < rest.length := by simpa using h
    have ih := csum_words_set rest i c hh
    have hmod : (i + 2) % 2 = i % 2 := Nat.add_mod_right i 2
    simp only [List.set, csum_words, List.get, hmod]
    omega

theorem xattr_hash_set_ne (P : List Byte) (i : Nat) (c : Byte)
    (h : i < P.length) (hc : c ≠ P.get ⟨i, h⟩) :
    xattr_hash (P.set i c) ≠ xattr_hash P := by
  have key := csum_words_set P i c h
  have hcv : c.val ≠ (P.get ⟨i, h⟩).val := fun hv => hc (Fin.ext hv)
  have hcb : c.val < 256 := c.isLt
  have hpb : (P.get ⟨i, h⟩).val < 256 := (P.get ⟨i, h⟩).isLt
  have h2 : i % 2 = 0 ∨ i % 2 = 1 := by omega
  intro heq
  unfold xattr_hash at heq
  rcases h2 with h0 | h1
  · rw [h0, pow_zero] at key; omega
  · rw [h1, pow_one] at key; omega

/-! ## Correctness of the chunked write loop -/

theorem wr_chunk_pos (bs bp : Nat) (h : bp < bs) : 0 < wr_chunk bs bp := by
  unfold wr_chunk
  split <;> simp [PAGE_CACHE_SIZE] <;> omega

theorem wr_chunk_le (bs bp : Nat) : wr_chunk bs bp ≤ bs - bp := by
  unfold wr_chunk
  split <;> omega

theorem xattr_header_length (h : Nat) : (xattr_header h).length = 8 := by
  simp [xattr_header, le32]

/-- Invariant of the non-first iterations: from buffer position `bp > 0` (file
position `bp + 8`), the loop overwrites everything from file position `bp + 8`
on with the rest of the payload. -/
theorem set_loop_tail (P : List Byte) (hsh : Nat) :
    ∀ (fuel bp : Nat) (file : List Byte),
      P.length - bp < fuel → 0 < bp → bp ≤ P.length →
      bp + 8 ≤ file.length → file.length ≤ P.length + 8 →
      set_loop P hsh fuel file (bp + 8) bp =
        file.take (bp + 8) ++ P.drop bp := by
  intro fuel
  induction fuel with
  | zero => intro bp file h _ _ _ _; omega
  | succ k ih =>
    intro bp file hfuel hbp hble hfl hfu
    rcases Nat.lt_or_ge bp P.length with hlt | hge
    · have hc1 : bp < P.length ∨ bp = 0 := Or.inl hlt
      have hfp : ¬ (bp + 8 = 0) := by omega
      have hbs : ¬ (P.length = 0) := by omega
      rw [set_loop]
      simp only [if_pos hc1, if_neg hfp, if_neg hbs]
      set chunk := wr_chunk P.length bp with hchunk
      have hcpos : 0 < chunk := wr_chunk_pos _ _ hlt
      have hcle : chunk ≤ P.length - bp := wr_chunk_le _ _
      have hD : ((P.drop bp).take chunk).length = chunk := by
        simp [List.length_take, List.length_drop]
        omega
      have hfile1 : writeBytes file (bp + 8) ((P.drop bp).take chunk) =
          file.take (bp + 8) ++ (P.drop bp).take chunk ++
            file.drop (bp + 8 + chunk) := by
        rw [writeBytes_inside _ _ _ (by omega), hD]
      rw [hfile1]
      have harg : bp + 8 + chunk = (bp + chunk) + 8 := by omega
      rw [harg]
      have hlen1 : (file.take (bp + 8) ++ (P.drop bp).take chunk ++
          file.drop ((bp + chunk) + 8)).length =
          max file.length ((bp + chunk) + 8) := by
        simp [hD]
        omega
      rw [ih (bp + chunk) _ (by omega) (by omega) (by omega)
        (by rw [hlen1]; omega) (by rw [hlen1]; omega)]
      have h1 : (file.take (bp + 8) ++ (P.drop bp).take chunk).length =
          (bp + chunk) + 8 := by
        simp [hD]
        omega
      have htk : (file.take (bp + 8) ++ (P.drop bp).take chunk ++
          file.drop ((bp + chunk) + 8)).take ((bp + chunk) + 8) =
          file.take (bp + 8) ++ (P.drop bp).take chunk := by
        rw [show (bp + chunk) + 8 =
            (file.take (bp + 8) ++ (P.drop bp).take chunk).length + 0 from by
              rw [h1]]
        rw [take_append_len]
        simp
      rw [htk]
      have hPd : (P.drop bp).take chunk ++ P.drop (bp + chunk) = P.drop bp := by
        have hdd : (P.drop bp).drop chunk = P.drop (bp + chunk) :=
          List.drop_drop chunk bp P
        rw [← hdd, List.take_append_drop]
      rw [List.append_assoc, hPd]
    · -- bp = P.length: the loop condition fails and the loop returns the file
      have hbpe : bp = P.length := by omega
      rw [set_loop]
      have hcond : ¬ (bp < P.length ∨ bp = 0) := by omega
      rw [if_neg hcond]
      rw [List.take_of_length_le (by omega), hbpe, List.drop_length,
        List.append_nil]

theorem wr_chunk0_start (bs : Nat) :
    wr_chunk0 bs 0 = if bs > 4088 then 4088 else bs := by
  unfold wr_chunk0 wr_chunk
  simp only [Nat.sub_zero, PAGE_CACHE_SIZE, XATTR_HEADER_SIZE]
  split_ifs <;> omega

/-- The first iteration: header at offset 0, first payload chunk at offset 8;
then the tail invariant finishes the job.  Starting from the truncated file
(length `P.length`), the loop produces exactly header-plus-payload. -/
theorem set_loop_start (P : List Byte) (hsh : Nat) (fuel : Nat)
    (file : List Byte) (hlen : file.length = P.length)
    (hfuel : P.length < fuel) :
    set_loop P hsh fuel file 0 0 = xattr_header hsh ++ P := by
  cases fuel with
  | zero => omega
  | succ k =>
    have hc1 : ((0 : Nat) < P.length ∨ (0 : Nat) = 0) := Or.inr rfl
    have h00 : ((0 : Nat) = 0) := rfl
    rw [set_loop, if_pos hc1, if_pos h00]
    simp only [List.drop_zero]
    set chunk := wr_chunk0 P.length 0 with hchunk
    have hchunk_eq : chunk = if P.length > 4088 then 4088 else P.length := by
      rw [hchunk, wr_chunk0_start]
    have hcle : chunk ≤ P.length := by rw [hchunk_eq]; split_ifs <;> omega
    have hcle2 : chunk ≤ 4088 := by rw [hchunk_eq]; split_ifs <;> omega
    have hw0 : writeBytes file 0 (xattr_header hsh) =
        xattr_header hsh ++ file.drop 8 := by
      rw [writeBytes_inside _ _ _ (Nat.zero_le _)]
      rw [List.take_zero, List.nil_append, xattr_header_length hsh]
    have hD : (P.take chunk).length = chunk := by
      simp [List.length_take]
      omega
    have hw1 : writeBytes (xattr_header hsh ++ file.drop 8) XATTR_HEADER_SIZE
        (P.take chunk) =
        xattr_header hsh ++ (P.take chunk ++ file.drop (8 + chunk)) := by
      rw [writeBytes_inside _ _ _
        (by simp [xattr_header_length, XATTR_HEADER_SIZE])]
      have h8a : (XATTR_HEADER_SIZE : Nat) = (xattr_header hsh).length + 0 := by
        simp [xattr_header_length, XATTR_HEADER_SIZE]
      have h8b : XATTR_HEADER_SIZE + (P.take chunk).length =
          (xattr_header hsh).length + chunk := by
        simp [xattr_header_length, XATTR_HEADER_SIZE, hD]
      rw [h8a, take_append_len]
      rw [show (xattr_header hsh).length + 0 + (P.take chunk).length =
          (xattr_header hsh).length + chunk from by omega]
      rw [drop_append_len]
      have hdd : (file.drop 8).drop chunk = file.drop (8 + chunk) :=
        List.drop_drop chunk 8 file
      simp [hdd, List.append_assoc]
    rw [hw0, hw1]
    by_cases hP : P.length = 0
    · rw [if_pos hP]
      have hpn : P = [] := List.length_eq_zero.mp hP
      subst hpn
      simp
      omega
    · rw [if_neg hP]
      have hc2 : 0 < chunk := by rw [hchunk_eq]; split_ifs <;> omega
      have hlen1 : (xattr_header hsh ++
          (P.take chunk ++ file.drop (8 + chunk))).length =
          8 + chunk + (P.length - (8 + chunk)) := by
        simp [xattr_header_length, hD, hlen]
        omega
      have harg : XATTR_HEADER_SIZE + chunk = chunk + 8 := by
        simp [XATTR_HEADER_SIZE]; omega
      rw [harg, show (0 : Nat) + chunk = chunk from by omega]
      rw [set_loop_tail P hsh k chunk _ (by omega) hc2 hcle
        (by rw [hlen1]; omega) (by rw [hlen1]; omega)]
      have htk : (xattr_header hsh ++
          (P.take chunk ++ file.drop (8 + chunk))).take (chunk + 8) =
          xattr_header hsh ++ P.take chunk := by
        rw [show chunk + 8 = (xattr_header hsh).length + chunk from by
          rw [xattr_header_length]; omega]
        rw [take_append_len]
        rw [List.take_append_of_le_length (by omega), List.take_take]
        simp
      rw [htk, List.append_assoc, List.take_append_drop]

/-- What `reiserfs_xattr_set` stores: exactly the 8-byte header followed by
the raw payload (for every payload length, including 0 and lengths that are
not multiples of the page size). -/
theorem xattr_file_new_content_eq (P old : List Byte) :
    xattr_file_new_content P old = xattr_header (xattr_hash P) ++ P := by
  rw [show xattr_file_new_content P old =
      set_loop P (if 0 < P.length then xattr_hash P else 0) (P.length + 1)
        (truncate old P.length) 0 0 from rfl]
  by_cases h : 0 < P.length
  · rw [if_pos h]
    exact set_loop_start P _ _ _ (truncate_length old P.length) (by omega)
  · rw [if_neg h]
    have hp : P = [] := List.length_eq_zero.mp (by omega)
    subst hp
    rw [set_loop_start [] 0 ([].length + 1) (truncate old [].length)
      (truncate_length old [].length) (by omega)]
    rfl

/-! ## Correctness of the chunked read loop -/

theorem rd_chunk_pos (n fp : Nat) (h : fp < n) : 0 < rd_chunk n fp := by
  unfold rd_chunk
  split <;> simp [PAGE_CACHE_SIZE] <;> omega

theorem rd_chunk_le (n fp : Nat) : rd_chunk n fp ≤ n - fp := by
  unfold rd_chunk
  split <;> omega

theorem rd_chunk_le_page (n fp : Nat) : rd_chunk n fp ≤ PAGE_CACHE_SIZE := by
  unfold rd_chunk
  split <;> omega

/-- On a page-aligned position, reading from the start of the page is reading
from that file position. -/
theorem filePage_take_aligned (file : List Byte) (fp c : Nat)
    (hal : fp % PAGE_CACHE_SIZE = 0) (hc1 : c ≤ PAGE_CACHE_SIZE)
    (hc2 : c ≤ file.length - fp) :
    (filePage file (fp / PAGE_CACHE_SIZE)).take c = (file.drop fp).take c := by
  unfold filePage
  have hmul : fp / PAGE_CACHE_SIZE * PAGE_CACHE_SIZE = fp :=
    Nat.div_mul_cancel (Nat.dvd_of_mod_eq_zero hal)
  rw [hmul]
  have hraw : ((file.drop fp).take PAGE_CACHE_SIZE).length =
      min PAGE_CACHE_SIZE (file.length - fp) := by
    simp [List.length_take]
  rw [List.take_append_of_le_length (by rw [hraw]; omega)]
  rw [List.take_take]
  congr 1
  omega

/-- Reading past the 8-byte header on page 0. -/
theorem filePage0_drop_header_take (file : List Byte) (c : Nat)
    (hm : 8 ≤ file.length) (hc : c ≤ PAGE_CACHE_SIZE - 8)
    (hc2 : c ≤ file.length - 8) :
    ((filePage file 0).drop 8).take c = (file.drop 8).take c := by
  have hpg : PAGE_CACHE_SIZE = 4096 := rfl
  unfold filePage
  rw [Nat.zero_mul, List.drop_zero]
  have hlt : (file.take PAGE_CACHE_SIZE).length =
      min PAGE_CACHE_SIZE file.length := by simp
  rw [drop_append_of_le _ _ 8 (by rw [hlt]; omega)]
  have hdt : (file.take PAGE_CACHE_SIZE).drop 8 =
      (file.drop 8).take (PAGE_CACHE_SIZE - 8) :=
    List.drop_take PAGE_CACHE_SIZE 8 file
  have hdl : ((file.take PAGE_CACHE_SIZE).drop 8).length =
      min PAGE_CACHE_SIZE file.length - 8 := by simp [hlt]
  rw [List.take_append_of_le_length (by rw [hdl]; omega)]
  rw [hdt, List.take_take]
  congr 1
  omega

theorem byteAt_filePage0 (file : List Byte) (j : Nat) (hj : j < 8)
    (hm : 8 ≤ file.length) : byteAt (filePage file 0) j = byteAt file j := by
  unfold filePage
  rw [Nat.zero_mul, List.drop_zero]
  rw [byteAt_append_left _ _ j (by simp [PAGE_CACHE_SIZE]; omega)]
  exact byteAt_take file PAGE_CACHE_SIZE j (by simp [PAGE_CACHE_SIZE]; omega)

theorem from_le32_at_filePage0_0 (file : List Byte) (hm : 8 ≤ file.length) :
    from_le32_at (filePage file 0) 0 = from_le32_at file 0 := by
  unfold from_le32_at
  rw [byteAt_filePage0 file 0 (by omega) hm, byteAt_filePage0 file 1 (by omega) hm,
    byteAt_filePage0 file 2 (by omega) hm, byteAt_filePage0 file 3 (by omega) hm]

theorem from_le32_at_filePage0_4 (file : List Byte) (hm : 8 ≤ file.length) :
    from_le32_at (filePage file 0) 4 = from_le32_at file 4 := by
  unfold from_le32_at
  rw [byteAt_filePage0 file 4 (by omega) hm, byteAt_filePage0 file 5 (by omega) hm,
    byteAt_filePage0 file 6 (by omega) hm, byteAt_filePage0 file 7 (by omega) hm]

theorem from_le32_at_append0 (v : Nat) (rest : List Byte) :
    from_le32_at (le32 v ++ rest) 0 = v % 4294967296 := by
  simp [from_le32_at, le32, byteAt]
  omega

theorem from_le32_at_append4 (m s : Nat) (rest : List Byte) :
    from_le32_at (le32 m ++ (le32 s ++ rest)) 4 = s % 4294967296 := by
  simp [from_le32_at, le32, byteAt]
  omega

/-- Invariant of the non-first read iterations: from a page-aligned file
position `fp` (or the end of file), the loop copies the remaining file bytes
into the buffer starting at buffer position `bp`. -/
theorem get_loop_tail (file : List Byte) (h : Nat) :
    ∀ (fuel fp bp : Nat) (buffer : List Byte),
      file.length - fp < fuel →
      ((fp % PAGE_CACHE_SIZE = 0 ∧ 0 < fp) ∨ fp = file.length) →
      fp ≤ file.length →
      bp + (file.length - fp) ≤ buffer.length →
      get_loop file fuel buffer fp bp h =
        (none, buffer.take bp ++ file.drop fp ++
          buffer.drop (bp + (file.length - fp)), h) := by
  intro fuel
  induction fuel with
  | zero => intro fp bp buffer hfuel _ _ _; omega
  | succ k ih =>
    intro fp bp buffer hfuel hal hle hbuf
    rcases Nat.lt_or_ge fp file.length with hlt | hge
    · have halign : fp % PAGE_CACHE_SIZE = 0 ∧ 0 < fp := by
        rcases hal with h1 | h2
        · exact h1
        · omega
      have hfp0 : ¬ (fp = 0) := by omega
      rw [get_loop]
      simp only [if_pos hlt, if_neg hfp0]
      set chunk := rd_chunk file.length fp with hchunk
      have hcpos : 0 < chunk := rd_chunk_pos _ _ hlt
      have hcle : chunk ≤ file.length - fp := rd_chunk_le _ _
      have hcpg : chunk ≤ PAGE_CACHE_SIZE := rd_chunk_le_page _ _
      rw [filePage_take_aligned file fp chunk halign.1 hcpg hcle]
      have hD : ((file.drop fp).take chunk).length = chunk := by
        simp [List.length_take]
        omega
      rw [writeBytes_inside _ _ _ (by omega), hD]
      have hnext : (chunk = PAGE_CACHE_SIZE ∧ file.length - fp > PAGE_CACHE_SIZE) ∨
          chunk = file.length - fp := by
        rw [hchunk]; unfold rd_chunk; split
        · exact Or.inl ⟨rfl, by assumption⟩
        · exact Or.inr rfl
      have hal2 : ((fp + chunk) % PAGE_CACHE_SIZE = 0 ∧ 0 < fp + chunk) ∨
          fp + chunk = file.length := by
        rcases hnext with ⟨hc, _⟩ | hc
        · exact Or.inl ⟨by rw [hc, Nat.add_mod_right]; exact halign.1, by omega⟩
        · exact Or.inr (by omega)
      have hblen : (buffer.take bp ++ (file.drop fp).take chunk ++
          buffer.drop (bp + chunk)).length = buffer.length := by
        simp [hD]
        omega
      rw [ih (fp + chunk) (bp + chunk) _ (by omega) hal2 (by omega)
        (by rw [hblen]; omega)]
      have h1 : (buffer.take bp ++ (file.drop fp).take chunk).length =
          bp + chunk := by
        simp [hD]
        omega
      have htk : (buffer.take bp ++ (file.drop fp).take chunk ++
          buffer.drop (bp + chunk)).take (bp + chunk) =
          buffer.take bp ++ (file.drop fp).take chunk := by
        rw [show bp + chunk =
            (buffer.take bp ++ (file.drop fp).take chunk).length + 0 from by
              simp [h1]]
        rw [take_append_len]
        simp
      have hdr : (buffer.take bp ++ (file.drop fp).take chunk ++
          buffer.drop (bp + chunk)).drop ((bp + chunk) +
            (file.length - (fp + chunk))) =
          buffer.drop (bp + (file.length - fp)) := by
        rw [show (bp + chunk) + (file.length - (fp + chunk)) =
            (buffer.take bp ++ (file.drop fp).take chunk).length +
              (file.length - (fp + chunk)) from by rw [h1]]
        rw [drop_append_len, List.drop_drop]
        congr 1
        omega
      have hmid : (file.drop fp).take chunk ++ file.drop (fp + chunk) =
          file.drop fp := by
        have hdd : (file.drop fp).drop chunk = file.drop (fp + chunk) :=
          List.drop_drop chunk fp file
        rw [← hdd, List.take_append_drop]
      rw [htk, hdr, List.append_assoc (buffer.take bp)
        ((file.drop fp).take chunk) (file.drop (fp + chunk)), hmid]
    · -- fp = file.length: the loop ends
      have hfpe : fp = file.length := by omega
      rw [get_loop]
      rw [if_neg (by omega)]
      rw [hfpe, List.drop_length, Nat.sub_self, List.append_nil, Nat.add_zero,
        List.take_append_drop]

/-- The first read iteration on a file with a valid magic: the header is
checked and skipped, the stored hash is picked up, and the whole payload ends
up at the start of the buffer. -/
theorem get_loop_start (file buffer : List Byte) (fuel : Nat)
    (hm : 8 ≤ file.length)
    (hmagic : from_le32_at file 0 = REISERFS_XATTR_MAGIC)
    (hbuf : file.length - 8 ≤ buffer.length)
    (hfuel : file.length + 2 ≤ fuel) :
    get_loop file fuel buffer 0 0 0 =
      (none, file.drop 8 ++ buffer.drop (file.length - 8),
        from_le32_at file 4) := by
  have hpg : PAGE_CACHE_SIZE = 4096 := rfl
  cases fuel with
  | zero => omega
  | succ k =>
    have h0 : (0 : Nat) < file.length := by omega
    have h00 : ((0 : Nat) = 0) := rfl
    rw [get_loop, if_pos h0, if_pos h00]
    simp only [Nat.zero_div]
    have hpage0 : from_le32_at (filePage file 0) 0 = REISERFS_XATTR_MAGIC := by
      rw [from_le32_at_filePage0_0 file hm, hmagic]
    rw [if_neg (by simp [hpage0])]
    rw [from_le32_at_filePage0_4 file hm]
    simp only [show (XATTR_HEADER_SIZE : Nat) = 8 from rfl]
    set chunk1 := rd_chunk file.length 0 - 8 with hc1def
    have hcval : rd_chunk file.length 0 =
        if file.length > PAGE_CACHE_SIZE then PAGE_CACHE_SIZE else file.length := by
      unfold rd_chunk
      simp
    have hc1a : chunk1 ≤ PAGE_CACHE_SIZE - 8 := by
      rw [hc1def, hcval]
      split_ifs <;> omega
    have hc1b : chunk1 ≤ file.length - 8 := by
      rw [hc1def, hcval]
      split_ifs <;> omega
    rw [filePage0_drop_header_take file chunk1 hm hc1a hc1b]
    have hD : ((file.drop 8).take chunk1).length = chunk1 := by
      simp [List.length_take]
      omega
    rw [writeBytes_inside _ _ _ (Nat.zero_le _), hD]
    simp only [List.take_zero, List.nil_append, Nat.zero_add]
    have hfp1 : 8 + chunk1 =
        min file.length PAGE_CACHE_SIZE := by
      rw [hc1def, hcval]
      split_ifs <;> omega
    have hal : ((8 + chunk1) % PAGE_CACHE_SIZE = 0 ∧
        0 < 8 + chunk1) ∨
        8 + chunk1 = file.length := by
      rw [hfp1]
      rcases Nat.lt_or_ge file.length PAGE_CACHE_SIZE with hl | hg
      · exact Or.inr (by omega)
      · rcases Nat.eq_or_lt_of_le hg with he | hlt2
        · exact Or.inr (by omega)
        · exact Or.inl ⟨by rw [Nat.min_eq_right (by omega), Nat.mod_self],
            by omega⟩
    have hblen1 : ((file.drop 8).take chunk1 ++
        buffer.drop chunk1).length = chunk1 + (buffer.length - chunk1) := by
      simp [hD]
    rw [get_loop_tail file (from_le32_at file 4) k (8 + chunk1)
      chunk1 _ (by rw [hfp1]; omega) hal (by rw [hfp1]; omega)
      (by rw [hblen1, hfp1]; omega)]
    have htk : ((file.drop 8).take chunk1 ++ buffer.drop chunk1).take chunk1 =
        (file.drop 8).take chunk1 := by
      rw [List.take_append_of_le_length (by rw [hD]),
        List.take_take, Nat.min_self]
    have hidx : chunk1 + (file.length - (8 + chunk1)) =
        file.length - 8 := by
      omega
    have hdr2 : ((file.drop 8).take chunk1 ++ buffer.drop chunk1).drop
        (chunk1 + (file.length - (8 + chunk1))) =
        buffer.drop (file.length - 8) := by
      rw [hidx]
      rw [show file.length - 8 =
          ((file.drop 8).take chunk1).length + (file.length - 8 - chunk1) from by
            rw [hD]; omega]
      rw [drop_append_len, List.drop_drop]
      congr 1
      omega
    have hmid : (file.drop 8).take chunk1 ++
        file.drop (8 + chunk1) = file.drop 8 := by
      have hdd : (file.drop 8).drop chunk1 = file.drop (8 + chunk1) :=
        List.drop_drop chunk1 8 file
      rw [← hdd,
        List.take_append_drop]
    rw [htk, hdr2, List.append_assoc ((file.drop 8).take chunk1)
      (file.drop (8 + chunk1)) (buffer.drop (file.length - 8))]
    rw [show (file.drop 8).take chunk1 ++
        (file.drop (8 + chunk1) ++
          buffer.drop (file.length - 8)) =
        ((file.drop 8).take chunk1 ++ file.drop (8 + chunk1)) ++
          buffer.drop (file.length - 8) from by rw [List.append_assoc]]
    rw [hmid]

theorem le32_length (v : Nat) : (le32 v).length = 4 := by
  simp [le32]

theorem stored_length (m s : Nat) (Q : List Byte) :
    (le32 m ++ (le32 s ++ Q)).length = 8 + Q.length := by
  simp [le32_length]
  omega

theorem stored_drop8 (m s : Nat) (Q : List Byte) :
    (le32 m ++ (le32 s ++ Q)).drop 8 = Q := by
  rw [show (8 : Nat) = (le32 m).length + 4 from by rw [le32_length]]
  rw [drop_append_len]
  rw [show (4 : Nat) = (le32 s).length + 0 from by rw [le32_length]]
  rw [drop_append_len]
  rfl

/-- `reiserfs_xattr_get` on an open attribute file holding a valid magic,
a stored hash `s` and payload `Q`: the whole payload is copied out and the
recomputed checksum decides between success and `-EIO` (xattr.c lines
684-687). -/
theorem get_file_on_stored (m s : Nat) (Q buf : List Byte) (bsize : Nat)
    (hm : m % 4294967296 = REISERFS_XATTR_MAGIC)
    (hbs : Q.length ≤ bsize) (hbuf : Q.length ≤ buf.length) :
    reiserfs_xattr_get_file (le32 m ++ (le32 s ++ Q)) (some buf) bsize =
      if xattr_hash Q ≠ s % 4294967296 then
        ( EIO, some (Q ++ buf.drop Q.length))
      else ((Q.length : Int), some (Q ++ buf.drop Q.length)) := by
  have hhs : XATTR_HEADER_SIZE = 8 := rfl
  have hlen := stored_length m s Q
  unfold reiserfs_xattr_get_file
  simp only [hlen]
  rw [if_neg (by unfold sizeT_sub SIZE_T_MOD; simp only [hhs]; omega)]
  rw [get_loop_start (le32 m ++ (le32 s ++ Q)) buf (8 + Q.length + 2)
    (by rw [hlen]; omega) (by rw [from_le32_at_append0]; exact hm)
    (by rw [hlen]; omega) (by rw [hlen])]
  simp only [stored_drop8, from_le32_at_append4, hlen]
  rw [show 8 + Q.length - XATTR_HEADER_SIZE = Q.length from by omega]
  rw [show 8 + Q.length - 8 = Q.length from by omega]
  have htq : (Q ++ buf.drop Q.length).take Q.length = Q := by
    rw [show Q.length = Q.length + 0 from rfl, take_append_len]
    simp
  rw [htq]

/-- An at-least-header-sized file whose first page does not carry the magic
constant is rejected with `-EIO` before anything is copied (xattr.c lines
668-674); the header-size bound keeps the wrapped `size_t` comparison from
firing first. -/
theorem get_file_bad_magic (file buf : List Byte) (bsize : Nat)
    (h8 : 8 ≤ file.length)
    (hmagic : from_le32_at (filePage file 0) 0 ≠ REISERFS_XATTR_MAGIC)
    (hrange : file.length - 8 ≤ bsize) :
    reiserfs_xattr_get_file file (some buf) bsize = ( EIO, some buf) := by
  have hhs : XATTR_HEADER_SIZE = 8 := rfl
  have h00 : ((0 : Nat) = 0) := rfl
  have h0 : 0 < file.length := by omega
  unfold reiserfs_xattr_get_file
  simp only [hhs]
  rw [if_neg (by unfold sizeT_sub SIZE_T_MOD; omega)]
  rw [show file.length + 2 = (file.length + 1) + 1 from rfl]
  rw [get_loop, if_pos h0, if_pos h00]
  simp only [Nat.zero_div]
  rw [if_pos hmagic]

/-- A file shorter than the 8-byte header is rejected with `-ERANGE`: the
`size_t` difference `isize - sizeof (header)` wraps huge, so any realistic
(word-sized) `buffer_size` compares below it (xattr.c line 641). -/
theorem get_file_short_erange (file buf : List Byte) (bsize : Nat)
    (hshort : file.length < 8) (hbs : bsize < SIZE_T_MOD - 8 + file.length) :
    reiserfs_xattr_get_file file (some buf) bsize = ( ERANGE, some buf) := by
  have hhs : XATTR_HEADER_SIZE = 8 := rfl
  unfold reiserfs_xattr_get_file
  simp only [hhs]
  rw [if_pos (by
    have hm : SIZE_T_MOD = 18446744073709551616 := rfl
    unfold sizeT_sub SIZE_T_MOD
    omega)]

/-- Success path, specialized to the exact content `reiserfs_xattr_set`
stores: the payload round-trips. -/
theorem get_file_roundtrip (P buf : List Byte) (bsize : Nat)
    (hbs : P.length ≤ bsize) (hbuf : P.length ≤ buf.length) :
    reiserfs_xattr_get_file (xattr_header (xattr_hash P) ++ P) (some buf)
      bsize = ((P.length : Int), some (P ++ buf.drop P.length)) := by
  have hmagic : REISERFS_XATTR_MAGIC % 4294967296 = REISERFS_XATTR_MAGIC := by
    decide
  have h := get_file_on_stored REISERFS_XATTR_MAGIC (xattr_hash P) P buf bsize
    hmagic hbs hbuf
  rw [xattr_header, List.append_assoc, h]
  have hself : xattr_hash P % 4294967296 = xattr_hash P := by
    unfold xattr_hash
    omega
  rw [if_neg (by rw [hself]; exact fun hne => hne rfl)]

/-! ## State-level lemmas -/

theorem lookup_one_len_update (d : XaDir) (name : Name) (f : XaFile)
    (c : List Byte) (h : lookup_one_len name d = some f) :
    lookup_one_len name (updateData name c d) = some { f with data := c } := by
  induction d with
  | nil => simp [lookup_one_len] at h
  | cons p rest ih =>
    obtain ⟨k, g⟩ := p
    by_cases hk : k = name
    · simp only [lookup_one_len, if_pos hk] at h
      injection h with h
      subst h
      simp [updateData, lookup_one_len, hk]
    · simp only [lookup_one_len, updateData, if_neg hk] at h ⊢
      exact ih h

theorem open_xa_dir_ok (st : Option XaDir) (flags : Nat) (d : XaDir)
    (st1 : Option XaDir) (h : open_xa_dir st flags = (.ok d, st1)) :
    st1 = some d := by
  unfold open_xa_dir at h
  cases st with
  | some d0 =>
    injection h with h1 h2
    injection h1 with h1
    rw [← h2, h1]
  | none =>
    split_ifs at h with hmc
    · injection h with h1 h2
      injection h1 with h1
      rw [← h2, h1]
    · exact absurd h (by simp)

theorem open_xa_dir_error (st : Option XaDir) (flags : Nat) (e : Int)
    (st1 : Option XaDir) (h : open_xa_dir st flags = (.error e, st1)) :
    e = ENODATA ∧ st1 = st := by
  unfold open_xa_dir at h
  cases st with
  | some d0 => exact absurd h (by simp)
  | none =>
    split_ifs at h with hmc
    · exact absurd h (by simp)
    · injection h with h1 h2
      injection h1 with h1
      exact ⟨h1.symm, h2.symm⟩

theorem get_xa_file_dentry_ok_some (st : Option XaDir) (name : Name)
    (flags : Nat) (g : XaFile) (st2 : Option XaDir)
    (h : get_xa_file_dentry st name flags = (.ok (some g), st2)) :
    ∃ d1, st2 = some d1 ∧ lookup_one_len name d1 = some g := by
  unfold get_xa_file_dentry at h
  rcases ho : open_xa_dir st flags with ⟨dres, st3⟩
  rw [ho] at h
  cases dres with
  | error e => simp at h
  | ok d =>
    simp only [] at h
    have hst3 : st3 = some d := open_xa_dir_ok st flags d st3 ho
    rcases hl : lookup_one_len name d with _ | g0 <;> rw [hl] at h <;>
      simp only [] at h
    · split_ifs at h with hrep
      · exact absurd h (by simp)
      · injection h with h1 h2
        injection h1 with h1
        injection h1 with h1
        exact ⟨(name, newXaFile) :: d, h2.symm, by simp [lookup_one_len, h1]⟩
    · split_ifs at h with hcr
      · exact absurd h (by simp)
      · injection h with h1 h2
        injection h1 with h1
        injection h1 with h1
        exact ⟨d, by rw [← h2, hst3], by rw [hl, h1]⟩

theorem open_xa_file_ok (st : Option XaDir) (name : Name) (flags : Nat)
    (f : XaFile) (st1 : Option XaDir)
    (h : open_xa_file st name flags = (.ok f, st1)) :
    ∃ d1, st1 = some d1 ∧ lookup_one_len name d1 = some f := by
  unfold open_xa_file at h
  rcases hg : get_xa_file_dentry st name flags with ⟨res, st2⟩
  rw [hg] at h
  match res with
  | .error e => exact absurd h (by simp)
  | .ok none => exact absurd h (by simp)
  | .ok (some g) =>
    simp only [] at h
    injection h with h1 h2
    injection h1 with h1
    rw [← h1, ← h2]
    exact get_xa_file_dentry_ok_some st name flags g st2 hg

theorem get_xa_file_dentry_error_neg (st : Option XaDir) (name : Name)
    (flags : Nat) (e : Int) (st2 : Option XaDir)
    (h : get_xa_file_dentry st name flags = (.error e, st2)) : e < 0 := by
  unfold get_xa_file_dentry at h
  rcases ho : open_xa_dir st flags with ⟨dres, st3⟩
  rw [ho] at h
  cases dres with
  | error e0 =>
    simp only [] at h
    injection h with h1 h2
    injection h1 with h1
    rw [← h1, (open_xa_dir_error st flags e0 st3 ho).1]
    decide
  | ok d =>
    simp only [] at h
    rcases hl : lookup_one_len name d with _ | g0 <;> rw [hl] at h <;>
      simp only [] at h
    · split_ifs at h with hrep
      · exact absurd h (by simp)
      · exact absurd h (by simp)
    · split_ifs at h with hcr
      · injection h with h1 h2
        injection h1 with h1
        rw [← h1]
        decide
      · exact absurd h (by simp)

theorem open_xa_file_error_neg (st : Option XaDir) (name : Name) (flags : Nat)
    (e : Int) (st1 : Option XaDir)
    (h : open_xa_file st name flags = (.error e, st1)) : e < 0 := by
  unfold open_xa_file at h
  rcases hg : get_xa_file_dentry st name flags with ⟨res, st2⟩
  rw [hg] at h
  match res with
  | .error e0 =>
    simp only [] at h
    injection h with h1 h2
    injection h1 with h1
    rw [← h1]
    exact get_xa_file_dentry_error_neg st name flags e0 st2 hg
  | .ok none =>
    simp only [] at h
    injection h with h1 h2
    injection h1 with h1
    rw [← h1]
    decide
  | .ok (some g) => exact absurd h (by simp)

theorem reiserfs_xattr_del_code (st : Option XaDir) (name : Name) :
    (reiserfs_xattr_del st name).1 = 0 ∨ (reiserfs_xattr_del st name).1 < 0 := by
  unfold reiserfs_xattr_del
  rcases ho : open_xa_dir st FL_READONLY with ⟨dres, st1⟩
  cases dres with
  | error e =>
    refine Or.inr ?_
    simp only []
    rw [(open_xa_dir_error st FL_READONLY e st1 ho).1]
    decide
  | ok d =>
    simp only []
    unfold __reiserfs_xattr_del
    rcases hl : lookup_one_len name d with _ | f <;> simp only []
    · exact Or.inr (by decide)
    · split_ifs with h1 h2
      · exact Or.inl rfl
      · exact Or.inl rfl
      · refine Or.inr ?_
        show EIO < 0
        decide

/-- Whenever `reiserfs_xattr_set_go` returns success, the attribute file of
that name exists in the resulting state and holds header-plus-payload. -/
theorem set_go_success (name : Name) (P : List Byte) :
    ∀ (fuel : Nat) (st : Option XaDir) (flags : Nat),
      (reiserfs_xattr_set_go fuel st name P flags).1 = 0 →
      ∃ f, attrLookup (reiserfs_xattr_set_go fuel st name P flags).2 name =
          some f ∧ f.data = xattr_header (xattr_hash P) ++ P := by
  intro fuel
  induction fuel with
  | zero =>
    intro st flags hset
    rw [reiserfs_xattr_set_go] at hset ⊢
    rcases ho : open_xa_file st name flags with ⟨res, st1⟩
    rw [ho] at hset
    cases res with
    | error e =>
      simp only [] at hset
      have := open_xa_file_error_neg st name flags e st1 ho
      omega
    | ok f =>
      simp only [] at hset ⊢
      by_cases hn : 1 < f.nlink
      · rw [if_pos hn] at hset
        rcases hd : reiserfs_xattr_del st1 name with ⟨err, st2⟩
        rw [hd] at hset
        simp only [] at hset
        by_cases he : err < 0
        · rw [if_pos he] at hset
          simp only [] at hset
          omega
        · rw [if_neg he] at hset
          simp only [] at hset
          exact absurd hset (by decide)
      · rw [if_neg hn] at hset ⊢
        obtain ⟨d1, hst1, hlk⟩ := open_xa_file_ok st name flags f st1 ho
        refine ⟨{ f with data := xattr_header (xattr_hash P) ++ P }, ?_, rfl⟩
        rw [hst1]
        show lookup_one_len name
          (updateData name (xattr_file_new_content P f.data) d1) = _
        rw [lookup_one_len_update d1 name f _ hlk, xattr_file_new_content_eq]
  | succ k ih =>
    intro st flags hset
    rw [reiserfs_xattr_set_go] at hset ⊢
    rcases ho : open_xa_file st name flags with ⟨res, st1⟩
    rw [ho] at hset
    cases res with
    | error e =>
      simp only [] at hset
      have := open_xa_file_error_neg st name flags e st1 ho
      omega
    | ok f =>
      simp only [] at hset ⊢
      by_cases hn : 1 < f.nlink
      · rw [if_pos hn] at hset ⊢
        rcases hd : reiserfs_xattr_del st1 name with ⟨err, st2⟩
        rw [hd] at hset
        simp only [] at hset ⊢
        by_cases he : err < 0
        · rw [if_pos he] at hset
          simp only [] at hset
          omega
        · rw [if_neg he] at hset ⊢
          exact ih st2 (clearReplace flags) hset
      · rw [if_neg hn] at hset ⊢
        obtain ⟨d1, hst1, hlk⟩ := open_xa_file_ok st name flags f st1 ho
        refine ⟨{ f with data := xattr_header (xattr_hash P) ++ P }, ?_, rfl⟩
        rw [hst1]
        show lookup_one_len name
          (updateData name (xattr_file_new_content P f.data) d1) = _
        rw [lookup_one_len_update d1 name f _ hlk, xattr_file_new_content_eq]

/-- Opening an attribute file read-only on a directory that holds it. -/
theorem open_xa_file_readonly (d : XaDir) (name : Name) (f : XaFile)
    (hl : lookup_one_len name d = some f) :
    open_xa_file (some d) name FL_READONLY = (.ok f, some d) := by
  unfold open_xa_file get_xa_file_dentry open_xa_dir
  simp [hl, FL_READONLY, XATTR_CREATE]

/-! ## Flag-bit arithmetic for the copy-off retry -/

theorem and_two_eq (x : Nat) : x &&& 2 = if x / 2 % 2 = 1 then 2 else 0 := by
  have h1 : x &&& 2 ^ 1 = (x.testBit 1).toNat * 2 ^ 1 := Nat.and_two_pow x 1
  have h2 : x.testBit 1 = decide (x / 2 ^ 1 % 2 = 1) := Nat.testBit_to_div_mod
  rw [pow_one] at h1 h2
  rw [h1, h2]
  by_cases h : x / 2 % 2 = 1 <;> simp [h]

theorem and_128_eq (x : Nat) : x &&& 128 = if x / 128 % 2 = 1 then 128 else 0 := by
  have h1 : x &&& 2 ^ 7 = (x.testBit 7).toNat * 2 ^ 7 := Nat.and_two_pow x 7
  have h2 : x.testBit 7 = decide (x / 2 ^ 7 % 2 = 1) := Nat.testBit_to_div_mod
  norm_num at h1 h2
  rw [h1, h2]
  by_cases h : x / 128 % 2 = 1 <;> simp [h]

theorem replace_bit_set (flags : Nat) (h : flags &&& XATTR_REPLACE ≠ 0) :
    flags / 2 % 2 = 1 := by
  have h2 := and_two_eq flags
  by_contra hb
  rw [show XATTR_REPLACE = 2 from rfl, h2, if_neg hb] at h
  exact h rfl

/-- `flags &= ~XATTR_REPLACE` leaves no replace bit behind. -/
theorem clearReplace_and_replace (flags : Nat) :
    clearReplace flags &&& XATTR_REPLACE = 0 := by
  unfold clearReplace
  by_cases h : flags &&& XATTR_REPLACE ≠ 0
  · rw [if_pos h]
    have hb := replace_bit_set flags h
    rw [show XATTR_REPLACE = 2 from rfl, and_two_eq]
    rw [if_neg (by omega)]
  · rw [if_neg h]
    omega

/-- Clearing the replace bit does not touch the create bit. -/
theorem clearReplace_and_create (flags : Nat) (h : flags &&& XATTR_CREATE = 0) :
    clearReplace flags &&& XATTR_CREATE = 0 := by
  unfold clearReplace
  by_cases h2 : flags &&& XATTR_REPLACE ≠ 0
  · rw [if_pos h2]
    have hb := replace_bit_set flags h2
    rw [show XATTR_CREATE = 1 from rfl, Nat.and_one_is_mod] at h ⊢
    rw [show XATTR_REPLACE = 2 from rfl]
    omega
  · rw [if_neg h2]
    exact h

/-- Clearing the replace bit does not touch the read-only bit. -/
theorem clearReplace_and_readonly (flags : Nat)
    (h : flags &&& FL_READONLY = 0) :
    clearReplace flags &&& FL_READONLY = 0 := by
  unfold clearReplace
  by_cases h2 : flags &&& XATTR_REPLACE ≠ 0
  · rw [if_pos h2]
    have hb := replace_bit_set flags h2
    rw [show FL_READONLY = 128 from rfl, and_128_eq] at h ⊢
    rw [show XATTR_REPLACE = 2 from rfl]
    have hflag : flags / 128 % 2 ≠ 1 := by
      intro hc
      rw [if_pos hc] at h
      omega
    rw [if_neg (by omega)]
  · rw [if_neg h2]
    exact h

theorem lookup_one_len_none_of_not_mem (d : XaDir) (name : Name)
    (h : name ∉ d.map Prod.fst) : lookup_one_len name d = none := by
  induction d with
  | nil => rfl
  | cons p rest ih =>
    obtain ⟨k, g⟩ := p
    simp only [List.map_cons, List.mem_cons, not_or] at h
    unfold lookup_one_len
    rw [if_neg (fun hk => h.1 hk.symm)]
    exact ih h.2

/-- After the unlink, a name-unique directory no longer holds the name. -/
theorem lookup_one_len_unlink_self (d : XaDir) (name : Name)
    (hnd : (d.map Prod.fst).Nodup) :
    lookup_one_len name (unlinkEntry name d) = none := by
  induction d with
  | nil => rfl
  | cons p rest ih =>
    obtain ⟨k, g⟩ := p
    simp only [List.map_cons, List.nodup_cons] at hnd
    unfold unlinkEntry
    by_cases hk : k = name
    · rw [if_pos hk]
      subst hk
      exact lookup_one_len_none_of_not_mem rest k hnd.1
    · rw [if_neg hk]
      unfold lookup_one_len
      rw [if_neg hk]
      exact ih hnd.2

/-- A successful `find?` re-run at the found element's own offset finds the
same element again. -/
theorem find_at_or_before_self (entries : List RdEntry) (pos : Nat)
    (e : RdEntry)
    (h : search_entry_at_or_before entries pos = some e) :
    search_entry_at_or_before entries e.deh_offset = some e := by
  unfold search_entry_at_or_before at h ⊢
  have hle : e.deh_offset ≤ pos := by
    simpa using List.find?_some h
  induction entries with
  | nil => simp at h
  | cons a l ih =>
    by_cases ha : a.deh_offset ≤ pos
    · rw [List.find?_cons_of_pos _ (by simpa using ha)] at h
      injection h with h
      subst h
      exact List.find?_cons_of_pos _ (by simp)
    · rw [List.find?_cons_of_neg _ (by simpa using ha)] at h
      rw [List.find?_cons_of_neg _ (by simp; omega)]
      exact ih h

/-! ## Claim theorems -/

/-- C1: for every payload `P` (length 0..N, including lengths that are zero or
not a multiple of the page size), a successful `reiserfs_xattr_set` of `P`
followed by `reiserfs_xattr_get` of the same name with a buffer of size
`P.length` succeeds, returns length `P.length`, and fills the buffer with
exactly the bytes of `P`. -/
theorem xattr_set_get_roundtrip (st : Option XaDir) (name : Name)
    (P buf : List Byte) (flags : Nat)
    (hbuf : buf.length = P.length)
    (hset : (reiserfs_xattr_set false st name P flags).1 = 0) :
    reiserfs_xattr_get false ((reiserfs_xattr_set false st name P flags).2)
      name (some buf) P.length = ((P.length : Int), some P) := by
  have hgo : reiserfs_xattr_set false st name P flags =
      reiserfs_xattr_set_go 1 st name P flags := rfl
  rw [hgo] at hset ⊢
  obtain ⟨f, hlk, hdata⟩ := set_go_success name P 1 st flags hset
  rcases hst1 : (reiserfs_xattr_set_go 1 st name P flags).2 with _ | d1
  · rw [hst1] at hlk
    simp [attrLookup] at hlk
  · rw [hst1] at hlk
    have hlk1 : lookup_one_len name d1 = some f := hlk
    show (match open_xa_file (some d1) name FL_READONLY with
      | (.error e, _) => (e, some buf)
      | (.ok f, _) => reiserfs_xattr_get_file f.data (some buf) P.length) = _
    rw [open_xa_file_readonly d1 name f hlk1]
    simp only []
    rw [hdata, get_file_roundtrip P buf P.length (le_refl _) (by omega)]
    have hdrop : buf.drop P.length = [] := by
      rw [← hbuf, List.drop_length]
    rw [hdrop, List.append_nil]

theorem xattr_set_get_roundtrip_witness :
    (reiserfs_xattr_set false none [97] [1, 2, 3] 0).1 = 0 ∧
    reiserfs_xattr_get false
      ((reiserfs_xattr_set false none [97] [1, 2, 3] 0).2)
      [97] (some [0, 0, 0]) 3 = (3, some [1, 2, 3]) :=
  ⟨by decide,
    xattr_set_get_roundtrip none [97] [1, 2, 3] [0, 0, 0] 0 (by decide)
      (by decide)⟩

/-- C3: `reiserfs_xattr_set` with the `XATTR_CREATE` flag on a name whose
attribute file already exists fails with `-EEXIST` and leaves the directory
state — in particular the existing value — completely unchanged. -/
theorem xattr_set_create_existing (d : XaDir) (name : Name) (P : List Byte)
    (flags : Nat) (f : XaFile)
    (hl : lookup_one_len name d = some f)
    (hc : flags &&& XATTR_CREATE ≠ 0) :
    reiserfs_xattr_set false (some d) name P flags = (EEXIST, some d) := by
  have hopen : open_xa_file (some d) name flags = (.error EEXIST, some d) := by
    unfold open_xa_file get_xa_file_dentry open_xa_dir
    simp [hl, hc]
  show reiserfs_xattr_set_go 1 (some d) name P flags = _
  rw [reiserfs_xattr_set_go, hopen]

theorem xattr_set_create_existing_witness :
    reiserfs_xattr_set false (some [([97], ⟨false, 1, true, [7]⟩)]) [97]
      [1, 2] XATTR_CREATE = (EEXIST, some [([97], ⟨false, 1, true, [7]⟩)]) :=
  xattr_set_create_existing [([97], ⟨false, 1, true, [7]⟩)] [97] [1, 2]
    XATTR_CREATE ⟨false, 1, true, [7]⟩ (by decide) (by decide)

/-- C4: `reiserfs_xattr_set` with the `XATTR_REPLACE` flag on a name with no
attribute file fails with `-ENODATA`, and no attribute file of that name
exists afterwards (the negative dentry is returned without creating,
xattr.c line 235). -/
theorem xattr_set_replace_missing (st : Option XaDir) (name : Name)
    (P : List Byte) (flags : Nat)
    (hmiss : attrLookup st name = none)
    (hr : flags &&& XATTR_REPLACE ≠ 0) :
    (reiserfs_xattr_set false st name P flags).1 = ENODATA ∧
    attrLookup (reiserfs_xattr_set false st name P flags).2 name = none := by
  have hopen : ∃ st1, open_xa_file st name flags = (.error ENODATA, st1) ∧
      attrLookup st1 name = none := by
    cases st with
    | none =>
      by_cases hmc : may_create flags = true
      · refine ⟨some [], ?_, rfl⟩
        unfold open_xa_file get_xa_file_dentry open_xa_dir
        simp [hmc, hr, lookup_one_len]
      · refine ⟨none, ?_, rfl⟩
        unfold open_xa_file get_xa_file_dentry open_xa_dir
        simp [hmc]
    | some d =>
      have hl : lookup_one_len name d = none := hmiss
      refine ⟨some d, ?_, hmiss⟩
      unfold open_xa_file get_xa_file_dentry open_xa_dir
      simp [hl, hr]
  obtain ⟨st1, ho, hl1⟩ := hopen
  constructor
  · show (reiserfs_xattr_set_go 1 st name P flags).1 = ENODATA
    rw [reiserfs_xattr_set_go, ho]
  · show attrLookup (reiserfs_xattr_set_go 1 st name P flags).2 name = none
    rw [reiserfs_xattr_set_go, ho]
    exact hl1

theorem xattr_set_replace_missing_witness :
    (reiserfs_xattr_set false (some []) [97] [1] XATTR_REPLACE).1 = ENODATA ∧
    attrLookup (reiserfs_xattr_set false (some []) [97] [1]
      XATTR_REPLACE).2 [97] = none :=
  xattr_set_replace_missing (some []) [97] [1] XATTR_REPLACE (by decide)
    (by decide)

/-- C6: `reiserfs_xattr_del` on an existing object directory: `-ENODATA` when
no entry of the name exists; an entry that is a directory is not deleted (and
no error is reported); an entry whose inode lacks the private-tree flag is
refused with `-EIO` and not unlinked; otherwise the entry is unlinked. -/
theorem reiserfs_xattr_del_spec (d : XaDir) (name : Name) :
    (lookup_one_len name d = none →
      reiserfs_xattr_del (some d) name = (ENODATA, some d)) ∧
    (∀ f, lookup_one_len name d = some f → f.isDir = true →
      reiserfs_xattr_del (some d) name = (0, some d)) ∧
    (∀ f, lookup_one_len name d = some f → f.isDir = false →
      f.isPriv = false →
      reiserfs_xattr_del (some d) name = ( EIO, some d)) ∧
    (∀ f, lookup_one_len name d = some f → f.isDir = false →
      f.isPriv = true →
      reiserfs_xattr_del (some d) name = (0, some (unlinkEntry name d))) := by
  refine ⟨fun h => ?_, fun f hf hd1 => ?_, fun f hf hd1 hp => ?_,
    fun f hf hd1 hp => ?_⟩ <;>
    unfold reiserfs_xattr_del __reiserfs_xattr_del open_xa_dir
  · simp [h]
  · simp [hf, hd1]
  · simp [hf, hd1, hp]
  · simp [hf, hd1, hp]

theorem reiserfs_xattr_del_spec_witness :
    reiserfs_xattr_del (some [([97], ⟨false, 1, true, [9]⟩)]) [97] =
      (0, some (unlinkEntry [97] [([97], ⟨false, 1, true, [9]⟩)])) :=
  (reiserfs_xattr_del_spec [([97], ⟨false, 1, true, [9]⟩)] [97]).2.2.2
    ⟨false, 1, true, [9]⟩ (by decide) rfl rfl

/-- C10: `reiserfs_listxattr` on an object whose attribute directory does not
exist (no attribute was ever set): the `-ENODATA` from the directory lookup is
converted to a successful empty listing — return 0, buffer untouched
(xattr.c lines 1063-1068). -/
theorem reiserfs_listxattr_no_xattrs (handlers : List Name)
    (buffer : Option (List Byte)) (size : Nat) :
    reiserfs_listxattr true false handlers none buffer size = (0, buffer) :=
  rfl

/-- C5: `reiserfs_xattr_set` on an attribute file with link count > 1 first
deletes the file through `reiserfs_xattr_del` and retries with
`XATTR_REPLACE` cleared: the rewrite succeeds (instead of failing with
`-ENODATA` on the now-missing file) and the attribute is re-created with link
count 1 and the freshly written header-plus-payload content. -/
theorem xattr_set_nlink_copy_off (d : XaDir) (name : Name) (P : List Byte)
    (flags : Nat) (f : XaFile)
    (hnd : (d.map Prod.fst).Nodup)
    (hl : lookup_one_len name d = some f)
    (hn : 1 < f.nlink) (hdir : f.isDir = false) (hpriv : f.isPriv = true)
    (hcr : flags &&& XATTR_CREATE = 0) (hro : flags &&& FL_READONLY = 0) :
    reiserfs_xattr_set false (some d) name P flags =
      (0, some ((name,
        (⟨false, 1, true, xattr_header (xattr_hash P) ++ P⟩ : XaFile)) ::
        unlinkEntry name d)) := by
  have hopen1 : open_xa_file (some d) name flags = (.ok f, some d) := by
    unfold open_xa_file get_xa_file_dentry open_xa_dir
    simp [hl, hcr]
  have hdel : reiserfs_xattr_del (some d) name = (0, some (unlinkEntry name d)) :=
    (reiserfs_xattr_del_spec d name).2.2.2 f hl hdir hpriv
  have hl2 : lookup_one_len name (unlinkEntry name d) = none :=
    lookup_one_len_unlink_self d name hnd
  have hopen2 : open_xa_file (some (unlinkEntry name d)) name
      (clearReplace flags) =
      (.ok newXaFile, some ((name, newXaFile) :: unlinkEntry name d)) := by
    unfold open_xa_file get_xa_file_dentry open_xa_dir
    have hc2 := clearReplace_and_create flags hcr
    have hr2 := clearReplace_and_replace flags
    have ho2 := clearReplace_and_readonly flags hro
    simp [hl2, hc2, hr2, ho2]
  show reiserfs_xattr_set_go 1 (some d) name P flags = _
  rw [reiserfs_xattr_set_go, hopen1]
  try simp only []
  rw [if_pos hn, hdel]
  try simp only []
  rw [if_neg (by decide : ¬ ((0 : Int) < 0))]
  try simp only []
  rw [reiserfs_xattr_set_go, hopen2]
  try simp only []
  rw [if_neg (by decide : ¬ 1 < newXaFile.nlink)]
  simp only [stateUpdate, updateData, if_pos rfl]
  rw [xattr_file_new_content_eq]
  rfl

theorem xattr_set_nlink_copy_off_witness :
    reiserfs_xattr_set false (some [([97], ⟨false, 2, true, [5]⟩)]) [97] [9]
      XATTR_REPLACE =
      (0, some ((([97] : Name), (⟨false, 1, true,
        xattr_header (xattr_hash [9]) ++ [9]⟩ : XaFile)) ::
          unlinkEntry [97] [([97], ⟨false, 2, true, [5]⟩)])) :=
  xattr_set_nlink_copy_off [([97], ⟨false, 2, true, [5]⟩)] [97] [9]
    XATTR_REPLACE ⟨false, 2, true, [5]⟩ (by decide) (by decide) (by decide)
    rfl rfl (by decide) (by decide)

/-- C7: when the `item_moved` optimistic concurrency check fires during
`__xattr_readdir`, the iteration retries with the cursor set back to the
found entry's own offset — not to `offset - 1` — and searching at that cursor
locates the very same entry again, so the entry is not skipped. -/
theorem xattr_readdir_retry_same_entry (entries : List RdEntry)
    (priv max_name pos : Nat) (moved : Bool) (p : Nat)
    (hstep : xattr_readdir_step entries priv max_name pos moved = .retry p) :
    ∃ e, search_entry_at_or_before entries pos = some e ∧
      p = e.deh_offset ∧ DOT_DOT_OFFSET < e.deh_offset ∧
      search_entry_at_or_before entries p = some e := by
  unfold xattr_readdir_step at hstep
  by_cases h1 : pos ≤ DOT_DOT_OFFSET
  · rw [if_pos h1] at hstep
    exact absurd hstep (by simp)
  · rw [if_neg h1] at hstep
    rcases hs : search_entry_at_or_before entries pos with _ | e <;>
      rw [hs] at hstep <;> simp only [] at hstep
    · exact absurd hstep (by simp)
    · split_ifs at hstep with h2 h3 h4 h5 h6 h7 <;> cases hstep
      refine ⟨e, rfl, rfl, by omega, ?_⟩
      exact find_at_or_before_self entries pos e hs

theorem xattr_readdir_retry_same_entry_witness :
    xattr_readdir_step
      [⟨100, true, 7, List.replicate 33 (65 : Byte)⟩] 1 255 200 true =
      .retry 100 ∧
    ∃ e, search_entry_at_or_before
        [⟨100, true, 7, List.replicate 33 (65 : Byte)⟩] 200 = some e ∧
      100 = e.deh_offset ∧ DOT_DOT_OFFSET < e.deh_offset ∧
      search_entry_at_or_before
        [⟨100, true, 7, List.replicate 33 (65 : Byte)⟩] 100 = some e :=
  ⟨by decide,
    xattr_readdir_retry_same_entry
      [⟨100, true, 7, List.replicate 33 (65 : Byte)⟩] 1 255 200 true 100
      (by decide)⟩

/-- C2: `reiserfs_xattr_get` with a non-null buffer fails with `-EIO` when the
stored file is at least header-sized but the magic constant of its first chunk
does not match (a shorter file never reaches the magic check: the wrapped
`size_t` comparison rejects it with `-ERANGE` first); fails with `-EIO` when
the checksum recomputed over the payload after the full read differs from the
stored one; and in particular, after any single byte of the stored payload is
corrupted on disk, it returns `-EIO` instead of silently accepting the
corrupted data. -/
theorem xattr_get_detects_corruption (d : XaDir) (name : Name) (f : XaFile)
    (buf : List Byte) (bsize : Nat)
    (hl : lookup_one_len name d = some f) :
    ((8 ≤ f.data.length →
      from_le32_at (filePage f.data 0) 0 ≠ REISERFS_XATTR_MAGIC →
      f.data.length - 8 ≤ bsize →
      (reiserfs_xattr_get false (some d) name (some buf) bsize).1 = EIO) ∧
     (∀ m s Q, f.data = le32 m ++ (le32 s ++ Q) →
      m % 4294967296 = REISERFS_XATTR_MAGIC →
      xattr_hash Q ≠ s % 4294967296 →
      Q.length ≤ bsize → Q.length ≤ buf.length →
      (reiserfs_xattr_get false (some d) name (some buf) bsize).1 = EIO) ∧
     (∀ (P old : List Byte) (i : Nat) (c : Byte) (hi : i < P.length),
      f.data = (xattr_file_new_content P old).set (8 + i) c →
      c ≠ P.get ⟨i, hi⟩ →
      P.length ≤ bsize → P.length ≤ buf.length →
      (reiserfs_xattr_get false (some d) name (some buf) bsize).1 = EIO)) := by
  have hget : reiserfs_xattr_get false (some d) name (some buf) bsize =
      reiserfs_xattr_get_file f.data (some buf) bsize := by
    show (match open_xa_file (some d) name FL_READONLY with
      | (.error e, _) => (e, some buf)
      | (.ok f, _) => reiserfs_xattr_get_file f.data (some buf) bsize) = _
    rw [open_xa_file_readonly d name f hl]
  refine ⟨fun h8 hm hr => ?_, fun m s Q hdata hm hq hbs hbl => ?_,
    fun P old i c hi hdata hc hbs hbl => ?_⟩
  · rw [hget, get_file_bad_magic f.data buf bsize h8 hm hr]
  · rw [hget, hdata, get_file_on_stored m s Q buf bsize hm hbs hbl, if_pos hq]
  · have hsplit : (xattr_file_new_content P old).set (8 + i) c =
        le32 REISERFS_XATTR_MAGIC ++ (le32 (xattr_hash P) ++ P.set i c) := by
      rw [xattr_file_new_content_eq, xattr_header, List.append_assoc]
      rw [show 8 + i = (le32 REISERFS_XATTR_MAGIC).length + (4 + i) from by
        rw [le32_length]; omega]
      rw [set_append_right]
      congr 1
      rw [show (4 : Nat) + i = (le32 (xattr_hash P)).length + i from by
        rw [le32_length]]
      rw [set_append_right]
    have hlen : (P.set i c).length = P.length := List.length_set P i c
    have hq : xattr_hash (P.set i c) ≠ xattr_hash P % 4294967296 := by
      have hself : xattr_hash P % 4294967296 = xattr_hash P := by
        unfold xattr_hash
        omega
      rw [hself]
      exact xattr_hash_set_ne P i c hi hc
    rw [hget, hdata, hsplit,
      get_file_on_stored REISERFS_XATTR_MAGIC (xattr_hash P) (P.set i c) buf
        bsize (by decide) (by rw [hlen]; exact hbs) (by rw [hlen]; exact hbl),
      if_pos hq]

theorem xattr_get_detects_corruption_witness :
    (reiserfs_xattr_get false
      (some [([97], ⟨false, 1, true,
        (xattr_file_new_content [10, 20] []).set 8 99⟩)])
      [97] (some [0, 0]) 2).1 = EIO :=
  ((xattr_get_detects_corruption [([97], ⟨false, 1, true,
      (xattr_file_new_content [10, 20] []).set 8 99⟩)] [97]
      ⟨false, 1, true, (xattr_file_new_content [10, 20] []).set 8 99⟩
      [0, 0] 2 (by decide)).2.2) [10, 20] [] 0 99 (by decide) rfl (by decide)
    (by decide) (by decide)

theorem lookup_isSome_of_mem_keys (d : XaDir) (n : Name)
    (h : n ∈ d.map Prod.fst) : (lookup_one_len n d).isSome := by
  induction d with
  | nil => simp at h
  | cons p rest ih =>
    obtain ⟨k, g⟩ := p
    unfold lookup_one_len
    by_cases hk : k = n
    · rw [if_pos hk]
      rfl
    · rw [if_neg hk]
      refine ih ?_
      simp only [List.map_cons, List.mem_cons] at h
      rcases h with h | h
      · exact absurd h.symm hk
      · exact h

/-- The chown enumeration over names that all resolve applies the change to
each non-directory entry and reports success. -/
theorem chown_readdir_trace (d : XaDir) (mask : Nat) :
    ∀ names : List Name, (∀ n ∈ names, (lookup_one_len n d).isSome) →
      chown_readdir d mask names =
        (0, names.filterMap (fun n => (lookup_one_len n d).bind
          (fun f0 => if f0.isDir then none
            else some ((some n : Option Name), mask)))) := by
  intro names
  induction names with
  | nil => intro _; rfl
  | cons n rest ih =>
    intro h
    have hrest : ∀ n2 ∈ rest, (lookup_one_len n2 d).isSome :=
      fun n2 hn2 => h n2 (by simp [hn2])
    unfold chown_readdir reiserfs_chown_xattrs_filler
    rcases hl : lookup_one_len n d with _ | f0
    · exact absurd (h n (by simp)) (by rw [hl]; simp)
    · simp only []
      rw [ih hrest]
      by_cases hd0 : f0.isDir = false
      · rw [if_pos hd0]
        simp only []
        rw [if_neg (by decide : ¬ ((0 : Int) < 0))]
        simp [List.filterMap_cons, hl, hd0]
      · rw [if_neg hd0]
        simp only []
        rw [if_neg (by decide : ¬ ((0 : Int) < 0))]
        have hd1 : f0.isDir = true := by
          cases hx : f0.isDir
          · exact absurd hx hd0
          · rfl
        simp [List.filterMap_cons, hl, hd1]

/-- Over a duplicate-free directory, the applied trace is exactly the
non-directory entries. -/
theorem chown_trace_keys (d : XaDir) (mask : Nat)
    (hnd : (d.map Prod.fst).Nodup) :
    (d.map Prod.fst).filterMap (fun n => (lookup_one_len n d).bind
      (fun f0 => if f0.isDir then none
        else some ((some n : Option Name), mask))) =
    (d.filter (fun p => p.2.isDir = false)).map
      (fun p => ((some p.1 : Option Name), mask)) := by
  induction d with
  | nil => rfl
  | cons p rest ih =>
    obtain ⟨k, g⟩ := p
    simp only [List.map_cons, List.nodup_cons] at hnd
    obtain ⟨hk, hrest⟩ := hnd
    simp only [List.map_cons, List.filterMap_cons]
    have hlk : lookup_one_len k ((k, g) :: rest) = some g := by
      unfold lookup_one_len
      rw [if_pos rfl]
    rw [hlk]
    have hcong : ∀ n ∈ rest.map Prod.fst,
        (lookup_one_len n ((k, g) :: rest)).bind
          (fun f0 => if f0.isDir then none
            else some ((some n : Option Name), mask)) =
        (lookup_one_len n rest).bind
          (fun f0 => if f0.isDir then none
            else some ((some n : Option Name), mask)) := by
      intro n hn
      have hne : ¬ (k = n) := fun he => hk (he ▸ hn)
      simp only [lookup_one_len, if_neg hne]
    rw [List.filterMap_congr hcong, ih hrest]
    by_cases hg : g.isDir
    · simp [hg, List.filter_cons]
    · simp [hg, List.filter_cons]

/-- C8: `reiserfs_chown_xattrs` restores the caller's full `ia_valid` on every
path; every attribute change it applies carries at most the
{uid, gid, change-time} bits (the caller's mask intersected with them); and on
the success path the change is applied to exactly the non-directory entries of
the attribute directory and then to the directory itself (last). -/
theorem reiserfs_chown_xattrs_spec (skip : Bool) (st : Option XaDir) (v : Nat) :
    ((reiserfs_chown_xattrs skip st v).2.1 = v) ∧
    (∀ pr ∈ (reiserfs_chown_xattrs skip st v).2.2,
      pr.2 = v &&& (ATTR_UID ||| ATTR_GID ||| ATTR_CTIME)) ∧
    (∀ d, st = some d → skip = false → (d.map Prod.fst).Nodup →
      (reiserfs_chown_xattrs skip st v).2.2 =
        (d.filter (fun p => p.2.isDir = false)).map
          (fun p => ((some p.1 : Option Name),
            v &&& (ATTR_UID ||| ATTR_GID ||| ATTR_CTIME))) ++
        [((none : Option Name), v &&& (ATTR_UID ||| ATTR_GID ||| ATTR_CTIME))]) := by
  cases skip with
  | true =>
    refine ⟨rfl, ?_, ?_⟩
    · intro pr hpr
      have hnil : (reiserfs_chown_xattrs true st v).2.2 = [] := rfl
      rw [hnil] at hpr
      simp at hpr
    · intro d hst hskip
      simp at hskip
  | false =>
    cases st with
    | none =>
      refine ⟨rfl, ?_, ?_⟩
      · intro pr hpr
        have hnil : (reiserfs_chown_xattrs false none v).2.2 = [] := rfl
        rw [hnil] at hpr
        simp at hpr
      · intro d hst
        simp at hst
    | some d =>
      have hiss : ∀ n ∈ d.map Prod.fst, (lookup_one_len n d).isSome :=
        fun n hn => lookup_isSome_of_mem_keys d n hn
      have hcr := chown_readdir_trace d
        (v &&& (ATTR_UID ||| ATTR_GID ||| ATTR_CTIME)) (d.map Prod.fst) hiss
      have hmain : reiserfs_chown_xattrs false (some d) v =
          (0, v, ((d.map Prod.fst).filterMap (fun n =>
            (lookup_one_len n d).bind (fun f0 => if f0.isDir then none
              else some ((some n : Option Name),
                v &&& (ATTR_UID ||| ATTR_GID ||| ATTR_CTIME))))) ++
            [((none : Option Name),
              v &&& (ATTR_UID ||| ATTR_GID ||| ATTR_CTIME))]) := by
        unfold reiserfs_chown_xattrs open_xa_dir
        rw [if_neg (by simp)]
        simp only []
        rw [hcr]
        simp only []
        rw [if_neg (by decide : ¬ ((0 : Int) ≠ 0))]
      refine ⟨by rw [hmain], ?_, ?_⟩
      · intro pr hpr
        rw [hmain] at hpr
        simp only [] at hpr
        rcases List.mem_append.mp hpr with hmem | hmem
        · obtain ⟨a, ha, hfa⟩ := List.mem_filterMap.mp hmem
          rcases hh : lookup_one_len a d with _ | f0 <;> rw [hh] at hfa
          · simp at hfa
          · by_cases hdir : f0.isDir = true
            · rw [Option.some_bind, if_pos hdir] at hfa
              simp at hfa
            · rw [Option.some_bind, if_neg hdir] at hfa
              injection hfa with hfa
              rw [← hfa]
        · have hpr2 : pr = ((none : Option Name),
              v &&& (ATTR_UID ||| ATTR_GID ||| ATTR_CTIME)) := by
            simpa using hmem
          rw [hpr2]
      · intro d2 hst hsk hnd
        injection hst with hst
        subst hst
        rw [hmain, chown_trace_keys d _ hnd]

theorem reiserfs_chown_xattrs_spec_witness :
    (reiserfs_chown_xattrs false
      (some [([97], ⟨false, 1, true, []⟩), ([98], ⟨true, 2, true, []⟩)])
      255).2.2 =
      [((some [97] : Option Name), 255 &&& (ATTR_UID ||| ATTR_GID ||| ATTR_CTIME))] ++
      [((none : Option Name), 255 &&& (ATTR_UID ||| ATTR_GID ||| ATTR_CTIME))] :=
  (reiserfs_chown_xattrs_spec false
    (some [([97], ⟨false, 1, true, []⟩), ([98], ⟨true, 2, true, []⟩)])
    255).2.2 [([97], ⟨false, 1, true, []⟩), ([98], ⟨true, 2, true, []⟩)]
    rfl rfl (by decide)

theorem listxattr_out_cons (handlers : List Name) (n : Name)
    (rest : List Name) :
    listxattr_out handlers (n :: rest) =
      (if xattr_visible handlers n then n ++ [(0 : Byte)] else []) ++
        listxattr_out handlers rest := by
  unfold listxattr_out
  by_cases h : xattr_visible handlers n
  · simp [List.filter_cons, h]
  · simp [List.filter_cons, h]

/-- The listxattr filler in closed form: a visible name advances the position
by its length plus one and writes the NUL-terminated name when it fits; any
other name leaves position and buffer untouched. -/
theorem listxattr_filler_eq (handlers : List Name) (r_size : Nat) (n : Name)
    (p : Nat) (b : List Byte) :
    reiserfs_listxattr_filler handlers r_size n p b =
      if xattr_visible handlers n then
        (p + n.length + 1,
          if p + n.length + 1 ≤ r_size then writeBytes b p (n ++ [(0 : Byte)])
          else b)
      else (p, b) := by
  unfold reiserfs_listxattr_filler xattr_visible xattr_list_len
  by_cases h1 : listxattr_dot_check n = true
  · rw [if_pos h1]
    rcases hf : find_xattr_handler_prefix handlers n with _ | pre
    · simp [h1]
    · simp only []
      by_cases h2 : n.length ≠ 0
      · rw [if_pos h2]
        simp [h1, h2]
      · rw [if_neg h2]
        simp [h1, h2]
  · rw [if_neg h1]
    simp [h1]

/-- The returned position after the enumeration is the start position plus the
total output size, independently of the buffer and of `r_size`. -/
theorem listxattr_fold_count (handlers : List Name) (r_size : Nat) :
    ∀ (names : List Name) (p : Nat) (b : List Byte),
      (listxattr_fold handlers r_size names p b).1 =
        p + (listxattr_out handlers names).length := by
  intro names
  induction names with
  | nil => intro p b; simp [listxattr_fold, listxattr_out]
  | cons n rest ih =>
    intro p b
    unfold listxattr_fold
    rw [listxattr_filler_eq]
    by_cases h : xattr_visible handlers n
    · rw [if_pos h]
      simp only []
      rw [ih, listxattr_out_cons, if_pos h]
      simp [List.length_append]
      omega
    · rw [if_neg h]
      simp only []
      rw [ih, listxattr_out_cons, if_neg h]
      simp

/-- When the whole output fits, the enumeration writes the output contiguously
at the current position and leaves the rest of the buffer unchanged. -/
theorem listxattr_fold_fill (handlers : List Name) (r_size : Nat) :
    ∀ (names : List Name) (p : Nat) (b : List Byte),
      b.length = r_size →
      p + (listxattr_out handlers names).length ≤ r_size →
      (listxattr_fold handlers r_size names p b).2 =
        b.take p ++ listxattr_out handlers names ++
          b.drop (p + (listxattr_out handlers names).length) := by
  intro names
  induction names with
  | nil =>
    intro p b hb hp
    simp [listxattr_fold, listxattr_out]
  | cons n rest ih =>
    intro p b hb hp
    rw [listxattr_out_cons] at hp ⊢
    unfold listxattr_fold
    rw [listxattr_filler_eq]
    by_cases h : xattr_visible handlers n
    · simp only [if_pos h] at hp ⊢
      try simp only []
      have hlen : (n ++ [(0 : Byte)]).length = n.length + 1 := by
        simp [List.length_append]
      have hfit : p + n.length + 1 ≤ r_size := by
        rw [List.length_append, hlen] at hp
        omega
      rw [if_pos hfit]
      have hple : p ≤ b.length := by omega
      have hwb : writeBytes b p (n ++ [(0 : Byte)]) =
          b.take p ++ (n ++ [(0 : Byte)]) ++ b.drop (p + (n.length + 1)) := by
        rw [writeBytes_inside b p _ hple, hlen]
      rw [hwb]
      have hwlen : (b.take p ++ (n ++ [(0 : Byte)]) ++
          b.drop (p + (n.length + 1))).length = b.length := by
        simp [List.length_append, List.length_take, List.length_drop, hlen]
        omega
      rw [ih (p + n.length + 1) _ (by rw [hwlen, hb])
        (by rw [List.length_append] at hp; omega)]
      have htk : (b.take p ++ (n ++ [(0 : Byte)]) ++
          b.drop (p + (n.length + 1))).take (p + n.length + 1) =
          b.take p ++ (n ++ [(0 : Byte)]) := by
        rw [List.append_assoc]
        rw [show p + n.length + 1 =
          (b.take p).length + ((n ++ [(0 : Byte)]).length + 0) from by
            rw [hlen, List.length_take]; omega]
        rw [take_append_len, take_append_len, List.take_zero,
          List.append_nil]
      have hdr : (b.take p ++ (n ++ [(0 : Byte)]) ++
          b.drop (p + (n.length + 1))).drop
            (p + n.length + 1 + (listxattr_out handlers rest).length) =
          b.drop (p + ((n ++ [(0 : Byte)]) ++
            listxattr_out handlers rest).length) := by
        rw [List.append_assoc]
        rw [show p + n.length + 1 + (listxattr_out handlers rest).length =
          (b.take p).length + ((n ++ [(0 : Byte)]).length +
            (listxattr_out handlers rest).length) from by
            rw [hlen, List.length_take]; omega]
        rw [drop_append_len, drop_append_len, List.drop_drop]
        congr 1
        simp only [List.length_append, List.length_cons, List.length_nil]
        omega
      rw [htk, hdr]
      simp only [List.append_assoc]
    · simp only [if_neg h] at hp ⊢
      try simp only []
      rw [ih p b hb (by simpa using hp)]
      simp

/-- C9: with attributes enabled and a version-2 object whose attribute
directory holds a fixed set of entries, `reiserfs_listxattr` with a null
buffer returns exactly the total byte count of the reported names (each name's
length plus one NUL); a call with a large-enough buffer writes exactly that
concatenation of NUL-terminated names and returns the same count; and a call
with a non-null buffer declared smaller than that count returns `-ERANGE`. -/
theorem reiserfs_listxattr_spec (handlers : List Name) (d : XaDir)
    (buf : List Byte) :
    (reiserfs_listxattr true false handlers (some d) none 0 =
      (((listxattr_out handlers (d.map Prod.fst)).length : Int), none)) ∧
    ((listxattr_out handlers (d.map Prod.fst)).length ≤ buf.length →
      reiserfs_listxattr true false handlers (some d) (some buf) buf.length =
        (((listxattr_out handlers (d.map Prod.fst)).length : Int),
          some (listxattr_out handlers (d.map Prod.fst) ++
            buf.drop (listxattr_out handlers (d.map Prod.fst)).length))) ∧
    (∀ size : Nat, size < (listxattr_out handlers (d.map Prod.fst)).length →
      (reiserfs_listxattr true false handlers (some d) (some buf) size).1 =
        ERANGE) := by
  refine ⟨?_, ?_, ?_⟩
  · unfold reiserfs_listxattr
    rw [if_neg (by simp)]
    simp only [open_xa_dir]
    try simp only []
    rw [if_neg (by simp)]
    rw [listxattr_fold_count]
    simp
  · intro hle
    unfold reiserfs_listxattr
    rw [if_neg (by simp)]
    simp only [open_xa_dir]
    try simp only []
    rw [if_neg (by
      rw [listxattr_fold_count]
      rintro ⟨hgt, _⟩
      omega)]
    have hf := listxattr_fold_fill handlers buf.length (d.map Prod.fst) 0
      ((some buf).getD []) (by simp) (by simp; omega)
    rw [listxattr_fold_count, hf]
    simp
  · intro size hsize
    unfold reiserfs_listxattr
    rw [if_neg (by simp)]
    simp only [open_xa_dir]
    try simp only []
    rw [if_pos (by
      refine ⟨?_, rfl⟩
      rw [listxattr_fold_count]
      omega)]

theorem reiserfs_listxattr_spec_witness :
    (reiserfs_listxattr true false [[117, 115, 101, 114, 46]]
      (some [([117, 115, 101, 114, 46, 97], ⟨false, 1, true, []⟩)])
      none 0 =
      ((7 : Int), none)) ∧
    (reiserfs_listxattr true false [[117, 115, 101, 114, 46]]
      (some [([117, 115, 101, 114, 46, 97], ⟨false, 1, true, []⟩)])
      (some [1, 1, 1, 1, 1, 1, 1, 1]) 8 =
      ((7 : Int), some [117, 115, 101, 114, 46, 97, 0, 1])) ∧
    ((reiserfs_listxattr true false [[117, 115, 101, 114, 46]]
      (some [([117, 115, 101, 114, 46, 97], ⟨false, 1, true, []⟩)])
      (some [1, 1, 1, 1, 1, 1, 1, 1]) 6).1 = ERANGE) := by
  have h := reiserfs_listxattr_spec [[117, 115, 101, 114, 46]]
    [([117, 115, 101, 114, 46, 97], ⟨false, 1, true, []⟩)]
    [1, 1, 1, 1, 1, 1, 1, 1]
  refine ⟨?_, ?_, ?_⟩
  · have := h.1
    rw [this]
    rfl
  · exact h.2.1 (by decide)
  · exact h.2.2 6 (by decide)

end ReiserfsXattr
